import Mathlib

/-!
# Verification of the `DataHandler` utility (`src/main.py`)

A shallow embedding of the four I/O operations (`load_json`, `save_json`,
`load_csv`, `save_csv`) and the pure `transform_data` operation of the
`DataHandler` class, together with proofs of the behavioural properties
stated in the specification.

Modelling choices:
* JSON values are modelled by `JValue`; numbers are modelled as integers
  (the demonstration data uses only integers; IEEE floats are outside the
  embedding).  Python `dict`s are modelled as insertion-ordered association
  lists, which is faithful to CPython's ordered dictionaries.
* The file system is an association list from path to file contents, and the
  `print` side channel of each operation is returned as a list of report
  lines.  An I/O failure in the model is a missing path; the `try/except`
  blocks of the source are embedded as `Except` values that each operation
  catches at its boundary, exactly where the source catches `Exception`.
* `open(path, "r")` performs universal-newline translation on the text read
  (CPython's default for text mode); this is embedded by `univNL`.
  `save_csv` opens with `newline=""`, so no translation happens on writes.
* The `json` and `csv` standard-library routines called by the source are
  embedded concretely: `json.dump(·, indent=4)` with `ensure_ascii` escaping,
  `json.load`, `csv.DictWriter` (QUOTE_MINIMAL quoting, `extrasaction`
  raising on unknown fields, `restval ""`), and `csv.DictReader` (first row
  as field names, blank rows skipped, `None` fill for short rows, rest key
  for long rows).
-/

/-- JSON-like values: the data handled by the JSON path of `DataHandler`.
Numbers are modelled as integers. -/
inductive JValue where
  | null
  | bool (b : Bool)
  | int (n : Int)
  | str (s : String)
  | arr (xs : List JValue)
  | obj (ms : List (String × JValue))
deriving Repr

/-- A record (Python `dict`) as an insertion-ordered association list. -/
abbrev Row := List (String × JValue)

/-- First-match lookup in an association list, i.e. Python `dict` lookup
(keys of a Python `dict` are unique, so first match is the match). -/
def getKV {α : Type} : List (String × α) → String → Option α
  | [], _ => Option.none
  | kv :: rest, k => if kv.1 = k then Option.some kv.2 else getKV rest k

/-- A transformation map: field name to unary function.  A Python callable
can raise, embedded as `Except`. -/
abbrev TMap := List (String × (JValue → Except String JValue))

/-- Sequenced effectful map: the embedding of a Python loop or comprehension
that applies a possibly-raising function to each element in order; the first
raised exception aborts the whole traversal. -/
def mapE {α β : Type} (f : α → Except String β) : List α → Except String (List β)
  | [] => Except.ok []
  | a :: as =>
    match f a with
    | Except.ok b => (mapE f as).map (fun bs => b :: bs)
    | Except.error e => Except.error e

/-- `transformations.get(key, lambda x: x)(value)` from line 110 of
`src/main.py`. -/
def applyTf (tr : TMap) (k : String) (v : JValue) : Except String JValue :=
  match getKV tr k with
  | Option.some f => f v
  | Option.none => Except.ok v

/-- One step of the comprehension on line 110 of `src/main.py`:
`{key: transformations.get(key, lambda x: x)(value) for key, value in row.items()}`. -/
def transform_row (tr : TMap) (row : Row) : Except String Row :=
  mapE (fun kv => (applyTf tr kv.1 kv.2).map (fun w => (kv.1, w))) row

/-- `DataHandler.transform_data` (lines 97-113 of `src/main.py`): the loop
over `data` appending one transformed row per input row.  There is no
`try/except` in the source here, so an exception propagates: the result is
an `Except` that no surrounding handler catches. -/
def transform_data (data : List Row) (tr : TMap) : Except String (List Row) :=
  mapE (transform_row tr) data

/-- Decimal value of a list of ASCII digits, most significant first. -/
def digitsVal (cs : List Char) : Nat :=
  cs.foldl (fun a c => a * 10 + (c.toNat - 48)) 0

/-- Python `int(s)` on a decimal string literal: optional sign followed by
at least one digit; anything else raises `ValueError`. -/
def pyIntOfString (s : String) : Except String Int :=
  match s.data with
  | '-' :: cs =>
    if cs ≠ [] ∧ cs.all Char.isDigit then Except.ok (-(digitsVal cs : Int))
    else Except.error ("invalid literal for int() with base 10: " ++ s)
  | cs =>
    if cs ≠ [] ∧ cs.all Char.isDigit then Except.ok ((digitsVal cs : Int))
    else Except.error ("invalid literal for int() with base 10: " ++ s)

/-- The `"age": lambda x: int(x) + 1` transformation from the demonstration
block of `src/main.py`. -/
def ageIncr (v : JValue) : Except String JValue :=
  match v with
  | JValue.str s => (pyIntOfString s).map (fun n => JValue.int (n + 1))
  | JValue.int n => Except.ok (JValue.int (n + 1))
  | _ => Except.error "int() argument must be a string, a bytes-like object or a real number"

/-- The file system: an association list from path to textual contents. -/
abbrev FS := List (String × String)

/-- Contents at a path, if the file exists. -/
def fsGet (fs : FS) (p : String) : Option String := getKV fs p

/-- Writing a file: `open(path, "w")` truncates or creates, then the write
replaces the contents. -/
def fsSet (fs : FS) (p : String) (s : String) : FS :=
  match fs with
  | [] => [(p, s)]
  | kv :: rest => if kv.1 = p then (p, s) :: rest else kv :: fsSet rest p s

/-! ## CSV writing: `csv.DictWriter` with the excel dialect -/

/-- A CSV record: field name to text value (the CSV path of the handler
deals in text). -/
abbrev CRow := List (String × String)

/-- QUOTE_MINIMAL: a field is quoted iff it contains the delimiter, the
quote character, or a line-terminator character. -/
def needsQuote (s : String) : Bool :=
  s.data.any (fun c => c = ',' || c = '"' || c = '\r' || c = '\n')

/-- Double each quote character (excel-dialect escaping inside quotes). -/
def escQuote : List Char → List Char
  | [] => []
  | c :: cs => if c = '"' then '"' :: '"' :: escQuote cs else c :: escQuote cs

/-- Render a single CSV field with minimal quoting. -/
def renderField (s : String) : List Char :=
  if needsQuote s then '"' :: (escQuote s.data ++ ['"']) else s.data

/-- Render the fields of a row joined by the delimiter. -/
def renderCells : List String → List Char
  | [] => []
  | [f] => renderField f
  | f :: g :: fs => renderField f ++ ',' :: renderCells (g :: fs)

/-- Render a row.  A record holding a single empty field is emitted as
`""` by the csv writer (QUOTE_MINIMAL) so that it is not read back as a
blank line. -/
def renderRow (row : List String) : List Char :=
  if row = [""] then ['"', '"'] else renderCells row

/-- A rendered row followed by the writer's line terminator `\r\n`
(the file was opened with `newline=""`, so it reaches the file verbatim). -/
def renderLine (row : List String) : List Char := renderRow row ++ ['\r', '\n']

/-- `", ".join(repr(k) for k in wrong_fields)` of `DictWriter`'s error. -/
def quoteJoin : List String → String
  | [] => ""
  | [k] => "'" ++ k ++ "'"
  | k :: l :: ks => "'" ++ k ++ "', " ++ quoteJoin (l :: ks)

/-- `csv.DictWriter._dict_to_list`: raises `ValueError` when the record has
a key outside `fieldnames` (`extrasaction="raise"`, the default), otherwise
lists the values in field-name order with `restval ""` for missing keys. -/
def dict_to_list (fieldnames : List String) (row : CRow) : Except String (List String) :=
  if row.all (fun kv => fieldnames.contains kv.1) then
    Except.ok (fieldnames.map (fun f => (getKV row f).getD ""))
  else
    Except.error ("dict contains fields not in fieldnames: " ++
      quoteJoin ((row.map Prod.fst).filter (fun k => ¬ fieldnames.contains k)))

/-- `writer.writerows(data)`: rows are converted and written one at a time,
so the text produced before a failing row is already in the (buffered) file
when the `ValueError` escapes to the `except` block.  Returns the text that
reached the file and the error, if one was raised. -/
def write_rows (fieldnames : List String) : List CRow → List Char × Option String
  | [] => ([], Option.none)
  | r :: rs =>
    match dict_to_list fieldnames r with
    | Except.error e => ([], Option.some e)
    | Except.ok cells =>
      let rest := write_rows fieldnames rs
      (renderLine cells ++ rest.1, rest.2)

/-- Header line (`writer.writeheader()`) followed by the data rows. -/
def csv_content (fieldnames : List String) (rows : List CRow) : List Char × Option String :=
  let rest := write_rows fieldnames rows
  (renderLine fieldnames ++ rest.1, rest.2)

/-- `DataHandler.save_csv` (lines 77-95 of `src/main.py`).  Empty data: no
file is touched, only the report line is printed.  Non-empty data: the field
names are the first record's keys, the file is opened for writing (truncating
it), and the header plus rows are written until a `ValueError` from the
writer, which the `except` block converts into a report line. -/
def save_csv (fs : FS) (p : String) (data : List CRow) : FS × List String :=
  match data with
  | [] => (fs, ["No data provided to save in CSV file."])
  | first :: _ =>
    match csv_content (first.map Prod.fst) data with
    | (content, Option.none) =>
      (fsSet fs p (String.mk content), ["Successfully saved CSV data to " ++ p ++ "."])
    | (content, Option.some e) =>
      (fsSet fs p (String.mk content), ["Error saving CSV file: " ++ e])

/-! ## CSV reading: text-mode `open` plus `csv.DictReader` -/

/-- Universal-newline translation of text-mode reads (`open(path, "r")`
with the default `newline=None`): `\r\n` and a lone `\r` both become `\n`.
The flag records whether the previous character was a `\r`, whose following
`\n`, if any, is swallowed. -/
def univNLGo : Bool → List Char → List Char
  | _, [] => []
  | afterCR, c :: cs =>
    if afterCR ∧ c = '\n' then univNLGo false cs
    else if c = '\r' then '\n' :: univNLGo true cs
    else c :: univNLGo false cs

/-- Universal-newline translation of a whole text. -/
def univNL (cs : List Char) : List Char := univNLGo false cs

/-- State of the csv reader's field scanner. -/
inductive CsvMode where
  | rowStart
  | fieldStart
  | inField
  | inQuoted
  | afterQuote
deriving Repr, DecidableEq

/-- The csv reader (excel dialect, non-strict): `rowStart` at the start of a
line, `fieldStart` just after a delimiter, `inField` inside an unquoted field
or after a closing quote, `inQuoted` inside quotes where the line terminator
is part of the field, `afterQuote` just after a quote seen inside a quoted
field (a second quote is a literal quote, anything else ends the quoted
part).  A line with no characters yields the empty row `[]` (which is what
makes `DictReader` able to skip blank lines). -/
def csvAux : CsvMode → List Char → List Char → List String → List (List String)
  | CsvMode.rowStart, [], _, _ => []
  | CsvMode.fieldStart, [], field, row => [row ++ [String.mk field]]
  | CsvMode.inField, [], field, row => [row ++ [String.mk field]]
  | CsvMode.inQuoted, [], field, row => [row ++ [String.mk field]]
  | CsvMode.afterQuote, [], field, row => [row ++ [String.mk field]]
  | CsvMode.rowStart, c :: cs, _, _ =>
    if c = ',' then csvAux CsvMode.fieldStart cs [] [""]
    else if c = '\n' then [] :: csvAux CsvMode.rowStart cs [] []
    else if c = '"' then csvAux CsvMode.inQuoted cs [] []
    else csvAux CsvMode.inField cs [c] []
  | CsvMode.fieldStart, c :: cs, _, row =>
    if c = ',' then csvAux CsvMode.fieldStart cs [] (row ++ [""])
    else if c = '\n' then (row ++ [""]) :: csvAux CsvMode.rowStart cs [] []
    else if c = '"' then csvAux CsvMode.inQuoted cs [] row
    else csvAux CsvMode.inField cs [c] row
  | CsvMode.inField, c :: cs, field, row =>
    if c = ',' then csvAux CsvMode.fieldStart cs [] (row ++ [String.mk field])
    else if c = '\n' then (row ++ [String.mk field]) :: csvAux CsvMode.rowStart cs [] []
    else csvAux CsvMode.inField cs (field ++ [c]) row
  | CsvMode.inQuoted, c :: cs, field, row =>
    if c = '"' then csvAux CsvMode.afterQuote cs field row
    else csvAux CsvMode.inQuoted cs (field ++ [c]) row
  | CsvMode.afterQuote, c :: cs, field, row =>
    if c = '"' then csvAux CsvMode.inQuoted cs (field ++ ['"']) row
    else if c = ',' then csvAux CsvMode.fieldStart cs [] (row ++ [String.mk field])
    else if c = '\n' then (row ++ [String.mk field]) :: csvAux CsvMode.rowStart cs [] []
    else csvAux CsvMode.inField cs (field ++ [c]) row

/-- Parse an entire (already newline-translated) text into rows of fields. -/
def parseCsv (cs : List Char) : List (List String) := csvAux CsvMode.rowStart cs [] []

/-- A value in a record returned by `csv.DictReader`: field text, the `None`
fill of a short row (`restval`), or the list of leftover cells of a long row
(stored under the `None` rest key). -/
inductive Cell where
  | text (s : String)
  | null
  | rest (xs : List String)
deriving Repr, DecidableEq

/-- A record as returned by `DictReader`: the key is a field name, or `None`
(the rest key) for the leftovers of a long row. -/
abbrev DRow := List (Option String × Cell)

/-- `DictReader.__next__`'s assembly of one record from one row: field names
zipped with cells; missing cells become `None`; leftover cells go under the
rest key. -/
def dictRow : List String → List String → DRow
  | [], [] => []
  | [], c :: cs => [(Option.none, Cell.rest (c :: cs))]
  | f :: fns, [] => (Option.some f, Cell.null) :: dictRow fns []
  | f :: fns, c :: cs => (Option.some f, Cell.text c) :: dictRow fns cs

/-- `csv.DictReader` over parsed rows: the first row gives the field names,
blank rows are skipped (`if row == []: continue`), every other row becomes
one record. -/
def dictRead : List (List String) → List DRow
  | [] => []
  | header :: rows => (rows.filter (fun r => r ≠ [])).map (dictRow header)

/-- `DataHandler.load_csv` (lines 57-75 of `src/main.py`): open in text mode
(universal newlines), run `DictReader`, return the rows; on failure (missing
file) return `[]` and print the error. -/
def load_csv (fs : FS) (p : String) : List DRow × List String :=
  match fsGet fs p with
  | Option.none =>
    ([], ["Error loading CSV file: [Errno 2] No such file or directory: '" ++ p ++ "'"])
  | Option.some s =>
    (dictRead (parseCsv (univNL s.data)), ["Successfully loaded CSV data from " ++ p ++ "."])

/-- The embedding of a saved text record into the type returned by
`load_csv`: every key present, every value read back as text. -/
def embedRow (r : CRow) : DRow :=
  r.map (fun kv => (Option.some kv.1, Cell.text kv.2))

/-! ## JSON writing: `json.dump(data, file, indent=4)` with `ensure_ascii` -/

/-- Lowercase hexadecimal digit. -/
def hexDigitChar (n : Nat) : Char :=
  if n < 10 then Char.ofNat (48 + n) else Char.ofNat (87 + n)

/-- Four-digit hexadecimal rendering of a 16-bit number. -/
def hex4 (n : Nat) : List Char :=
  [hexDigitChar (n / 4096 % 16), hexDigitChar (n / 256 % 16),
   hexDigitChar (n / 16 % 16), hexDigitChar (n % 16)]

/-- `json.encoder`'s ASCII escaping of one character: the two-character
escapes for quote, backslash and the common control characters, printable
ASCII verbatim, and `\uXXXX` (with a surrogate pair beyond the basic
multilingual plane) for everything else. -/
def escapeChar (c : Char) : List Char :=
  if c = '"' then ['\\', '"']
  else if c = '\\' then ['\\', '\\']
  else if c = '\n' then ['\\', 'n']
  else if c = '\t' then ['\\', 't']
  else if c = '\r' then ['\\', 'r']
  else if c.toNat = 8 then ['\\', 'b']
  else if c.toNat = 12 then ['\\', 'f']
  else if 32 ≤ c.toNat ∧ c.toNat ≤ 126 then [c]
  else if c.toNat < 65536 then '\\' :: 'u' :: hex4 c.toNat
  else
    '\\' :: 'u' :: (hex4 (55296 + (c.toNat - 65536) / 1024) ++
      '\\' :: 'u' :: hex4 (56320 + (c.toNat - 65536) % 1024))

/-- Escape a whole string body. -/
def escapeStr : List Char → List Char
  | [] => []
  | c :: cs => escapeChar c ++ escapeStr cs

/-- Decimal digit character. -/
def digitChar (n : Nat) : Char := Char.ofNat (48 + n)

/-- Digits of a natural number, most significant first, produced with an
explicit fuel so that the definition is structurally recursive. -/
def natCharsGo : Nat → Nat → List Char → List Char
  | 0, _, acc => acc
  | fuel + 1, n, acc =>
    if n < 10 then digitChar n :: acc
    else natCharsGo fuel (n / 10) (digitChar (n % 10) :: acc)

/-- Decimal digits of a natural number (`n + 1` is always enough fuel). -/
def natChars (n : Nat) : List Char := natCharsGo (n + 1) n []

/-- Python's decimal rendering of an integer. -/
def intChars : Int → List Char
  | Int.ofNat n => natChars n
  | Int.negSucc m => '-' :: natChars (m + 1)

/-- Indentation: `indent=4` writes `4 * depth` spaces after each newline. -/
def sp (n : Nat) : List Char := List.replicate n ' '

mutual

/-- `json.dump(v, file, indent=4)` at nesting depth `d`: keywords and
numbers verbatim, strings quoted and ASCII-escaped, empty containers as
`[]`/`{}`, non-empty containers opened with a newline, items indented one
level deeper and separated by `,\n`, and the closing bracket indented at
the current level.  The item separator is `", "` stripped to `","` because
an indent is given, and the key separator is `": "`. -/
def dumpVal : Nat → JValue → List Char
  | _, JValue.null => ['n', 'u', 'l', 'l']
  | _, JValue.bool true => ['t', 'r', 'u', 'e']
  | _, JValue.bool false => ['f', 'a', 'l', 's', 'e']
  | _, JValue.int n => intChars n
  | _, JValue.str s => '"' :: (escapeStr s.data ++ ['"'])
  | _, JValue.arr [] => ['[', ']']
  | d, JValue.arr (x :: xs) =>
    '[' :: '\n' :: (sp (4 * (d + 1)) ++ dumpVal (d + 1) x ++ dumpArrRest (d + 1) xs ++
      '\n' :: (sp (4 * d) ++ [']']))
  | _, JValue.obj [] => ['{', '}']
  | d, JValue.obj (m :: ms) =>
    '{' :: '\n' :: (sp (4 * (d + 1)) ++ dumpMember (d + 1) m ++ dumpObjRest (d + 1) ms ++
      '\n' :: (sp (4 * d) ++ ['}']))

/-- One object member: escaped key, `": "`, value. -/
def dumpMember : Nat → String × JValue → List Char
  | d, (k, v) => '"' :: (escapeStr k.data ++ '"' :: ':' :: ' ' :: dumpVal d v)

/-- The remaining array items, each preceded by `,\n` and the indent. -/
def dumpArrRest : Nat → List JValue → List Char
  | _, [] => []
  | d, x :: xs => ',' :: '\n' :: (sp (4 * d) ++ dumpVal d x ++ dumpArrRest d xs)

/-- The remaining object members, each preceded by `,\n` and the indent. -/
def dumpObjRest : Nat → List (String × JValue) → List Char
  | _, [] => []
  | d, m :: ms => ',' :: '\n' :: (sp (4 * d) ++ dumpMember d m ++ dumpObjRest d ms)

end

/-- The full serialized text of `json.dump(v, file, indent=4)`. -/
def jsonDumps (v : JValue) : String := String.mk (dumpVal 0 v)

/-- Key uniqueness of an association list, as holds for every Python dict. -/
def keysUniq : List String → Bool
  | [] => true
  | k :: ks => !(ks.contains k) && keysUniq ks

mutual

/-- A value is JSON-serializable from Python exactly when every object in it
has pairwise-distinct keys (a Python `dict` cannot hold duplicates). -/
def wfV : JValue → Bool
  | JValue.arr xs => wfL xs
  | JValue.obj ms => keysUniq (ms.map Prod.fst) && wfM ms
  | _ => true

/-- `wfV` on every element. -/
def wfL : List JValue → Bool
  | [] => true
  | x :: xs => wfV x && wfL xs

/-- `wfV` on every member value. -/
def wfM : List (String × JValue) → Bool
  | [] => true
  | (_, v) :: ms => wfV v && wfM ms

end

/-! ## JSON reading: `json.load` -/

/-- JSON whitespace. -/
def skipWs : List Char → List Char
  | [] => []
  | c :: cs => if c = ' ' ∨ c = '\t' ∨ c = '\n' ∨ c = '\r' then skipWs cs else c :: cs

/-- Expect a literal run of characters, returning the remainder. -/
def dropLit : List Char → List Char → Option (List Char)
  | [], cs => Option.some cs
  | _ :: _, [] => Option.none
  | l :: ls, c :: cs => if c = l then dropLit ls cs else Option.none

/-- Value of one hexadecimal digit. -/
def parseHexDigit (c : Char) : Option Nat :=
  if 48 ≤ c.toNat ∧ c.toNat ≤ 57 then Option.some (c.toNat - 48)
  else if 97 ≤ c.toNat ∧ c.toNat ≤ 102 then Option.some (c.toNat - 87)
  else if 65 ≤ c.toNat ∧ c.toNat ≤ 70 then Option.some (c.toNat - 55)
  else Option.none

/-- Value of four hexadecimal digit characters. -/
def hex4Val (a b c d : Char) : Option Nat :=
  match parseHexDigit a, parseHexDigit b, parseHexDigit c, parseHexDigit d with
  | Option.some x, Option.some y, Option.some z, Option.some w =>
    Option.some (4096 * x + 256 * y + 16 * z + w)
  | _, _, _, _ => Option.none

/-- Decode a single-character escape (`\"`, `\\`, `\/`, `\b`, `\f`, `\n`,
`\r`, `\t`); anything else is not a legal JSON escape. -/
def escDecode (e : Char) : Option Char :=
  if e = '"' then Option.some '"'
  else if e = '\\' then Option.some '\\'
  else if e = '/' then Option.some '/'
  else if e = 'b' then Option.some (Char.ofNat 8)
  else if e = 'f' then Option.some (Char.ofNat 12)
  else if e = 'n' then Option.some '\n'
  else if e = 'r' then Option.some '\r'
  else if e = 't' then Option.some '\t'
  else Option.none

/-- The body of a JSON string after the opening quote: plain characters up
to the closing quote, backslash escapes, and `\uXXXX` with surrogate-pair
recombination (a high surrogate must be followed by a low one).  Returns the
decoded characters and the remainder after the closing quote. -/
def parseStrBody : List Char → Option (List Char × List Char)
  | [] => Option.none
  | '"' :: cs => Option.some ([], cs)
  | '\\' :: 'u' :: a :: b :: c :: d :: cs =>
    (match hex4Val a b c d with
     | Option.none => Option.none
     | Option.some n =>
       if 55296 ≤ n ∧ n ≤ 56319 then
         match cs with
         | '\\' :: 'u' :: a2 :: b2 :: c2 :: d2 :: cs2 =>
           (match hex4Val a2 b2 c2 d2 with
            | Option.none => Option.none
            | Option.some m =>
              if 56320 ≤ m ∧ m ≤ 57343 then
                (parseStrBody cs2).map (fun p =>
                  (Char.ofNat (65536 + 1024 * (n - 55296) + (m - 56320)) :: p.1, p.2))
              else Option.none)
         | _ => Option.none
       else if 56320 ≤ n ∧ n ≤ 57343 then Option.none
       else (parseStrBody cs).map (fun p => (Char.ofNat n :: p.1, p.2)))
  | '\\' :: e :: cs =>
    (match escDecode e with
     | Option.some ch => (parseStrBody cs).map (fun p => (ch :: p.1, p.2))
     | Option.none => Option.none)
  | ['\\'] => Option.none
  | c :: cs => (parseStrBody cs).map (fun p => (c :: p.1, p.2))

/-- Consume a run of decimal digits, folding them onto `acc`. -/
def parseDigits : List Char → Nat → Nat × List Char
  | [], acc => (acc, [])
  | c :: cs, acc =>
    if c.isDigit then parseDigits cs (acc * 10 + (c.toNat - 48)) else (acc, c :: cs)

/-- Parse an integer whose first character `c` has already been taken. -/
def parseIntFrom (c : Char) (cs : List Char) : Option (Int × List Char) :=
  if c = '-' then
    match cs with
    | d :: ds =>
      if d.isDigit then
        Option.some (-((parseDigits ds (d.toNat - 48)).1 : Int), (parseDigits ds (d.toNat - 48)).2)
      else Option.none
    | [] => Option.none
  else if c.isDigit then
    Option.some (((parseDigits cs (c.toNat - 48)).1 : Int), (parseDigits cs (c.toNat - 48)).2)
  else Option.none

/-- Insert into a Python dict under construction: an existing key keeps its
position and gets the new value, a new key is appended. -/
def dictInsert (ms : List (String × JValue)) (k : String) (v : JValue) : List (String × JValue) :=
  match ms with
  | [] => [(k, v)]
  | kv :: rest => if kv.1 = k then (k, v) :: rest else kv :: dictInsert rest k v

/-- Build the dict for a parsed object, later duplicate keys overwriting
earlier ones, as `json.loads` does. -/
def objFromMembers (ms : List (String × JValue)) : List (String × JValue) :=
  ms.foldl (fun acc kv => dictInsert acc kv.1 kv.2) []

mutual

/-- Recursive-descent JSON value parser with a recursion budget; returns the
value and the unconsumed remainder.  Leading whitespace is skipped. -/
def parseVal : Nat → List Char → Option (JValue × List Char)
  | 0, _ => Option.none
  | f + 1, cs =>
    match skipWs cs with
    | [] => Option.none
    | c :: cs' =>
      if c = 'n' then
        match dropLit ['u', 'l', 'l'] cs' with
        | Option.some r => Option.some (JValue.null, r)
        | Option.none => Option.none
      else if c = 't' then
        match dropLit ['r', 'u', 'e'] cs' with
        | Option.some r => Option.some (JValue.bool true, r)
        | Option.none => Option.none
      else if c = 'f' then
        match dropLit ['a', 'l', 's', 'e'] cs' with
        | Option.some r => Option.some (JValue.bool false, r)
        | Option.none => Option.none
      else if c = '"' then
        (parseStrBody cs').map (fun p => (JValue.str (String.mk p.1), p.2))
      else if c = '[' then
        if (skipWs cs').headD 'x' = ']' then Option.some (JValue.arr [], (skipWs cs').tail)
        else (parseElems f cs').map (fun p => (JValue.arr p.1, p.2))
      else if c = '{' then
        if (skipWs cs').headD 'x' = '}' then Option.some (JValue.obj [], (skipWs cs').tail)
        else (parseMembers f cs').map (fun p => (JValue.obj (objFromMembers p.1), p.2))
      else (parseIntFrom c cs').map (fun p => (JValue.int p.1, p.2))

/-- One or more comma-separated array items up to the closing bracket. -/
def parseElems : Nat → List Char → Option (List JValue × List Char)
  | 0, _ => Option.none
  | f + 1, cs =>
    match parseVal f cs with
    | Option.none => Option.none
    | Option.some (v, rest) =>
      match skipWs rest with
      | [] => Option.none
      | c :: r2 =>
        if c = ',' then (parseElems f r2).map (fun p => (v :: p.1, p.2))
        else if c = ']' then Option.some ([v], r2)
        else Option.none

/-- One or more `"key": value` members up to the closing brace. -/
def parseMembers : Nat → List Char → Option (List (String × JValue) × List Char)
  | 0, _ => Option.none
  | f + 1, cs =>
    match skipWs cs with
    | [] => Option.none
    | c :: cs' =>
      if c = '"' then
        match parseStrBody cs' with
        | Option.none => Option.none
        | Option.some (k, r2) =>
          match skipWs r2 with
          | [] => Option.none
          | c2 :: r3 =>
            if c2 = ':' then
              match parseVal f r3 with
              | Option.none => Option.none
              | Option.some (v, r4) =>
                match skipWs r4 with
                | [] => Option.none
                | c3 :: r5 =>
                  if c3 = ',' then
                    (parseMembers f r5).map (fun p => ((String.mk k, v) :: p.1, p.2))
                  else if c3 = '}' then Option.some ([(String.mk k, v)], r5)
                  else Option.none
            else Option.none
      else Option.none

end

/-- `json.loads`: parse one value, allow trailing whitespace, reject any
trailing data.  The budget `length + 1` always suffices because every
nesting level of a serialized value occupies at least one character. -/
def jsonLoads (s : String) : Option JValue :=
  match parseVal (s.data.length + 1) s.data with
  | Option.some (v, rest) => if skipWs rest = [] then Option.some v else Option.none
  | Option.none => Option.none

/-- The body of `load_json`'s `try` block: open (fails on a missing path),
read with universal newlines, parse. -/
def load_json_attempt (fs : FS) (p : String) : Except String JValue :=
  match fsGet fs p with
  | Option.none =>
    Except.error ("[Errno 2] No such file or directory: '" ++ p ++ "'")
  | Option.some s =>
    match jsonLoads (String.mk (univNL s.data)) with
    | Option.some v => Except.ok v
    | Option.none => Except.error "Expecting value"

/-- `DataHandler.load_json` (lines 23-40 of `src/main.py`): the result of
the `try` body, with any exception converted by the `except` block into a
report line and the fallback empty dict `{}`. -/
def load_json (fs : FS) (p : String) : JValue × List String :=
  match load_json_attempt fs p with
  | Except.ok v => (v, ["Successfully loaded JSON data from " ++ p ++ "."])
  | Except.error e => (JValue.obj [], ["Error loading JSON file: " ++ e])

/-- `DataHandler.save_json` (lines 42-55 of `src/main.py`): serialize with
`indent=4` and write, replacing the file. -/
def save_json (fs : FS) (p : String) (v : JValue) : FS × List String :=
  (fsSet fs p (jsonDumps v), ["Successfully saved JSON data to " ++ p ++ "."])

mutual

/-- Parser budget needed for a value: one unit per nesting step. -/
def jsizeV : JValue → Nat
  | JValue.arr xs => jsizeL xs + 1
  | JValue.obj ms => jsizeM ms + 1
  | _ => 1

/-- Budget needed for the items of an array. -/
def jsizeL : List JValue → Nat
  | [] => 0
  | x :: xs => max (jsizeV x) (jsizeL xs) + 1

/-- Budget needed for the members of an object. -/
def jsizeM : List (String × JValue) → Nat
  | [] => 0
  | (_, v) :: ms => max (jsizeV v) (jsizeM ms) + 1

end

/-! ## Lemmas about the effectful map -/

theorem mapE_eq_ok {α β : Type} {f : α → Except String β} {l : List α} {l' : List β}
    (h : mapE f l = Except.ok l') :
    List.Forall₂ (fun a b => f a = Except.ok b) l l' := by
  induction l generalizing l' with
  | nil =>
    simp only [mapE, Except.ok.injEq] at h
    subst h
    exact List.Forall₂.nil
  | cons a as ih =>
    simp only [mapE] at h
    cases hf : f a with
    | error e => rw [hf] at h; exact absurd h (by simp)
    | ok b =>
      rw [hf] at h
      cases hm : mapE f as with
      | error e => rw [hm] at h; exact absurd h (by simp [Except.map])
      | ok bs =>
        rw [hm] at h
        simp only [Except.map, Except.ok.injEq] at h
        subst h
        exact List.Forall₂.cons hf (ih hm)

theorem forall₂_exists_of_mem {α β : Type} {R : α → β → Prop} {l : List α} {l' : List β}
    (h : List.Forall₂ R l l') : ∀ a ∈ l, ∃ b, R a b := by
  induction h with
  | nil => intro a ha; exact absurd ha (List.not_mem_nil a)
  | cons hab _ ih =>
    intro x hx
    rcases List.mem_cons.mp hx with rfl | hx
    · exact ⟨_, hab⟩
    · exact ih x hx

/-! ## The transformation claims -/

theorem applyTf_empty (k : String) (v : JValue) : applyTf [] k v = Except.ok v := rfl

theorem applyTf_none (tr : TMap) (k : String) (v : JValue)
    (h : getKV tr k = Option.none) : applyTf tr k v = Except.ok v := by
  unfold applyTf
  rw [h]

theorem applyTf_some (tr : TMap) (k : String) (v : JValue)
    (f : JValue → Except String JValue) (h : getKV tr k = Option.some f) :
    applyTf tr k v = f v := by
  unfold applyTf
  rw [h]

theorem transform_row_empty (row : Row) : transform_row [] row = Except.ok row := by
  induction row with
  | nil => rfl
  | cons kv rest ih =>
    simp only [transform_row, mapE, applyTf, getKV, Except.map] at ih ⊢
    rw [ih]

/-- Claim C9: `transform_data` with an empty transformation map returns the
input records unchanged. -/
theorem transform_data_empty_map (data : List Row) :
    transform_data data [] = Except.ok data := by
  induction data with
  | nil => rfl
  | cons row rows ih =>
    simp only [transform_data, mapE, transform_row_empty]
    simp only [transform_data] at ih
    rw [ih]
    simp [Except.map]

/-- Claim C5: a successful `transform_data` returns as many records as it
was given, and the record at each index is the transform of the input record
at the same index. -/
theorem transform_data_length_order (data out : List Row) (tr : TMap)
    (h : transform_data data tr = Except.ok out) :
    out.length = data.length ∧
      ∀ i (h₁ : i < data.length) (h₂ : i < out.length),
        transform_row tr (data.get ⟨i, h₁⟩) = Except.ok (out.get ⟨i, h₂⟩) := by
  have h2 := mapE_eq_ok h
  rw [List.forall₂_iff_get] at h2
  exact ⟨h2.1.symm, h2.2⟩

theorem transform_data_length_order_witness :
    transform_data [[("age", JValue.str "25")], []] [("age", ageIncr)] =
        Except.ok [[("age", JValue.int 26)], []] ∧
      ([[("age", JValue.int 26)], []] : List Row).length =
        ([[("age", JValue.str "25")], []] : List Row).length :=
  ⟨rfl, (transform_data_length_order [[("age", JValue.str "25")], []]
    [[("age", JValue.int 26)], []] [("age", ageIncr)] rfl).1⟩

/-- Claim C1: in a successful `transform_data`, each output record matches
its input record field by field: same field name, the mapped function's
result where the name is in the map, the value unchanged where it is not,
and no other fields. -/
theorem transform_data_per_field (data out : List Row) (tr : TMap)
    (h : transform_data data tr = Except.ok out) :
    List.Forall₂ (fun row orow =>
      List.Forall₂ (fun (kv okv : String × JValue) =>
        okv.1 = kv.1 ∧
          (match getKV tr kv.1 with
           | Option.some f => f kv.2 = Except.ok okv.2
           | Option.none => okv.2 = kv.2)) row orow) data out := by
  refine (mapE_eq_ok h).imp ?_
  intro row orow hr
  refine (mapE_eq_ok hr).imp ?_
  intro kv okv hkv
  cases hg : getKV tr kv.1 with
  | none =>
    rw [applyTf_none _ _ _ hg] at hkv
    simp only [Except.map, Except.ok.injEq] at hkv
    subst hkv
    exact ⟨rfl, rfl⟩
  | some f =>
    rw [applyTf_some _ _ _ _ hg] at hkv
    cases hv : f kv.2 with
    | error e => rw [hv] at hkv; exact absurd hkv (by simp [Except.map])
    | ok w =>
      rw [hv] at hkv
      simp only [Except.map, Except.ok.injEq] at hkv
      subst hkv
      exact ⟨rfl, hv⟩

theorem transform_data_per_field_witness :
    transform_data [[("age", JValue.str "25"), ("city", JValue.str "Boston")]]
        [("age", ageIncr)] =
      Except.ok [[("age", JValue.int 26), ("city", JValue.str "Boston")]] ∧
    List.Forall₂ (fun row orow =>
      List.Forall₂ (fun (kv okv : String × JValue) =>
        okv.1 = kv.1 ∧
          (match getKV [("age", ageIncr)] kv.1 with
           | Option.some f => f kv.2 = Except.ok okv.2
           | Option.none => okv.2 = kv.2)) row orow)
      [[("age", JValue.str "25"), ("city", JValue.str "Boston")]]
      [[("age", JValue.int 26), ("city", JValue.str "Boston")]] :=
  ⟨rfl, transform_data_per_field _ _ _ rfl⟩

/-- Claim C8: when a transformation function raises on some field value, the
error escapes `transform_data` itself (there is no handler inside it), unlike
the errors caught inside the four I/O operations. -/
theorem transform_data_error_propagates (data : List Row) (tr : TMap)
    (h : ∃ row ∈ data, ∃ kv ∈ row, ∃ f, getKV tr kv.1 = Option.some f ∧
      ∃ e, f kv.2 = Except.error e) :
    ∃ e, transform_data data tr = Except.error e := by
  cases hres : transform_data data tr with
  | error e => exact ⟨e, rfl⟩
  | ok out =>
    exfalso
    obtain ⟨row, hrow, kv, hkv, f, hf, e, he⟩ := h
    obtain ⟨orow, hor⟩ := forall₂_exists_of_mem (mapE_eq_ok hres) row hrow
    obtain ⟨okv, hok⟩ := forall₂_exists_of_mem (mapE_eq_ok hor) kv hkv
    rw [applyTf_some _ _ _ _ hf, he] at hok
    exact absurd hok (by simp [Except.map])

theorem transform_data_error_propagates_witness :
    (∃ row ∈ [[("age", JValue.str "abc")]], ∃ kv ∈ row,
      ∃ f, getKV [("age", ageIncr)] kv.1 = Option.some f ∧
        ∃ e, f kv.2 = Except.error e) ∧
    ∃ e, transform_data [[("age", JValue.str "abc")]] [("age", ageIncr)] =
      Except.error e :=
  ⟨⟨[("age", JValue.str "abc")], by simp, ("age", JValue.str "abc"), by simp,
      ageIncr, rfl, "invalid literal for int() with base 10: abc", rfl⟩,
    transform_data_error_propagates _ _
      ⟨[("age", JValue.str "abc")], by simp, ("age", JValue.str "abc"), by simp,
        ageIncr, rfl, "invalid literal for int() with base 10: abc", rfl⟩⟩

/-! ## The `save_csv` error-handling claims -/

/-- Claim C6: `save_csv` called with no records leaves the file system
untouched (no file is created or modified at any path) and only reports
through the side channel; nothing is raised. -/
theorem save_csv_empty_no_write (fs : FS) (p : String) :
    save_csv fs p [] = (fs, ["No data provided to save in CSV file."]) := rfl

theorem write_rows_err (fieldnames : List String) (rows : List CRow)
    (h : ∃ r ∈ rows, ∃ e, dict_to_list fieldnames r = Except.error e) :
    ∃ e, (write_rows fieldnames rows).2 = Option.some e := by
  induction rows with
  | nil => obtain ⟨r, hr, _⟩ := h; exact absurd hr (List.not_mem_nil r)
  | cons r rs ih =>
    obtain ⟨r', hr', e', he'⟩ := h
    simp only [write_rows]
    cases hd : dict_to_list fieldnames r with
    | error e => exact ⟨e, rfl⟩
    | ok cells =>
      rcases List.mem_cons.mp hr' with rfl | hmem
      · rw [hd] at he'; exact absurd he' (by simp)
      · exact ih ⟨r', hmem, e', he'⟩

theorem dict_to_list_err (fieldnames : List String) (r : CRow)
    (h : ∃ kv ∈ r, fieldnames.contains kv.1 = false) :
    ∃ e, dict_to_list fieldnames r = Except.error e := by
  obtain ⟨kv, hkv, hc⟩ := h
  have hall : r.all (fun kv => fieldnames.contains kv.1) = false := by
    cases hA : r.all (fun kv => fieldnames.contains kv.1) with
    | false => rfl
    | true =>
      rw [List.all_eq_true] at hA
      rw [hA kv hkv] at hc
      exact absurd hc (by simp)
  refine ⟨"dict contains fields not in fieldnames: " ++
      quoteJoin ((r.map Prod.fst).filter (fun k => ¬ fieldnames.contains k)), ?_⟩
  unfold dict_to_list
  rw [hall]
  rfl

/-- Claim C10: for non-empty data, `save_csv` never lets an exception out;
the column order is the first record's key order, and when some record has a
field outside those columns the `ValueError` is caught and reported while the
file has already been truncated and holds only what was written before the
error (header plus the rows preceding the offending one). -/
theorem save_csv_extra_key (fs : FS) (p : String) (first : CRow) (rest : List CRow)
    (hbad : ∃ r ∈ first :: rest, ∃ kv ∈ r, (first.map Prod.fst).contains kv.1 = false) :
    ∃ e,
      save_csv fs p (first :: rest) =
        (fsSet fs p (String.mk (csv_content (first.map Prod.fst) (first :: rest)).1),
          ["Error saving CSV file: " ++ e]) ∧
      ∃ tail, (csv_content (first.map Prod.fst) (first :: rest)).1 =
        renderLine (first.map Prod.fst) ++ tail := by
  obtain ⟨r, hr, hkv⟩ := hbad
  obtain ⟨e', he'⟩ := write_rows_err (first.map Prod.fst) (first :: rest)
    ⟨r, hr, dict_to_list_err _ _ hkv⟩
  refine ⟨e', ?_, (write_rows (first.map Prod.fst) (first :: rest)).1, rfl⟩
  simp only [save_csv, csv_content, he']

theorem save_csv_extra_key_witness :
    (∃ r ∈ [[("a", "1")], [("b", "2")]], ∃ kv ∈ r,
      ((([("a", "1")] : CRow)).map Prod.fst).contains kv.1 = false) ∧
    (∃ e,
      save_csv [] "f" [[("a", "1")], [("b", "2")]] =
        (fsSet [] "f" (String.mk (csv_content ["a"] [[("a", "1")], [("b", "2")]]).1),
          ["Error saving CSV file: " ++ e]) ∧
      ∃ tail, (csv_content ["a"] [[("a", "1")], [("b", "2")]]).1 =
        renderLine ["a"] ++ tail) ∧
    String.mk (csv_content ["a"] [[("a", "1")], [("b", "2")]]).1 = "a\r\n1\r\n" :=
  ⟨⟨[("b", "2")], by simp, ("b", "2"), by simp, by decide⟩,
    save_csv_extra_key [] "f" [("a", "1")] [[("b", "2")]]
      ⟨[("b", "2")], by simp, ("b", "2"), by simp, by decide⟩,
    by decide⟩

/-! ## The `load_json` error-handling claim -/

theorem fsGet_fsSet (fs : FS) (p s : String) : fsGet (fsSet fs p s) p = Option.some s := by
  induction fs with
  | nil => simp [fsSet, fsGet, getKV]
  | cons kv rest ih =>
    by_cases h : kv.1 = p
    · simp [fsSet, fsGet, getKV, h]
    · simp only [fsGet] at ih
      simp only [fsSet, fsGet, getKV, if_neg h]
      exact ih

/-- Claim C4: `load_json` converts every failure of its `try` body into the
report line plus the fallback empty object, so nothing is raised at the
caller; consequently a missing file and a file legitimately containing `{}`
produce the same returned value, indistinguishable to the caller. -/
theorem load_json_never_raises (fs : FS) (p : String) :
    (∀ e, load_json_attempt fs p = Except.error e →
      load_json fs p = (JValue.obj [], ["Error loading JSON file: " ++ e])) ∧
    (load_json [] p).1 = JValue.obj [] ∧
    (load_json (fsSet [] p "{}") p).1 = JValue.obj [] := by
  refine ⟨?_, ?_, ?_⟩
  · intro e he
    simp [load_json, he]
  · simp [load_json, load_json_attempt, fsGet, getKV]
  · have h1 : load_json_attempt (fsSet [] p "{}") p = Except.ok (JValue.obj []) := by
      unfold load_json_attempt
      rw [fsGet_fsSet]
      rfl
    simp [load_json, h1]

theorem load_json_never_raises_witness :
    load_json_attempt [] "example.json" =
      Except.error "[Errno 2] No such file or directory: 'example.json'" ∧
    load_json [] "example.json" =
      (JValue.obj [],
        ["Error loading JSON file: [Errno 2] No such file or directory: 'example.json'"]) :=
  ⟨rfl, (load_json_never_raises [] "example.json").1 _ rfl⟩

/-! ## CSV reader lemmas: the scanner consumes what the writer produced -/

theorem mk_data (s : String) : String.mk s.data = s := rfl

theorem needsQuote_false_plain {f : String} (h : needsQuote f = false) :
    ∀ c ∈ f.data, c ≠ ',' ∧ c ≠ '"' ∧ c ≠ '\r' ∧ c ≠ '\n' := by
  intro c hc
  unfold needsQuote at h
  rw [List.any_eq_false] at h
  have hcc := h c hc
  refine ⟨?_, ?_, ?_, ?_⟩ <;> rintro rfl <;> simp at hcc

theorem csvAux_rowStart_comma (cs : List Char) (field : List Char) (row : List String) :
    csvAux CsvMode.rowStart (',' :: cs) field row = csvAux CsvMode.fieldStart cs [] [""] := by
  simp [csvAux]

theorem csvAux_rowStart_newline (cs : List Char) (field : List Char) (row : List String) :
    csvAux CsvMode.rowStart ('\n' :: cs) field row = [] :: csvAux CsvMode.rowStart cs [] [] := by
  simp [csvAux]

theorem csvAux_rowStart_quote (cs : List Char) (field : List Char) (row : List String) :
    csvAux CsvMode.rowStart ('"' :: cs) field row = csvAux CsvMode.inQuoted cs [] [] := by
  simp [csvAux]

theorem csvAux_rowStart_other {c : Char} (h1 : c ≠ ',') (h2 : c ≠ '\n') (h3 : c ≠ '"')
    (cs : List Char) (field : List Char) (row : List String) :
    csvAux CsvMode.rowStart (c :: cs) field row = csvAux CsvMode.inField cs [c] [] := by
  simp [csvAux, h1, h2, h3]

theorem csvAux_fieldStart_comma (cs : List Char) (field : List Char) (row : List String) :
    csvAux CsvMode.fieldStart (',' :: cs) field row =
      csvAux CsvMode.fieldStart cs [] (row ++ [""]) := by
  simp [csvAux]

theorem csvAux_fieldStart_newline (cs : List Char) (field : List Char) (row : List String) :
    csvAux CsvMode.fieldStart ('\n' :: cs) field row =
      (row ++ [""]) :: csvAux CsvMode.rowStart cs [] [] := by
  simp [csvAux]

theorem csvAux_fieldStart_quote (cs : List Char) (field : List Char) (row : List String) :
    csvAux CsvMode.fieldStart ('"' :: cs) field row = csvAux CsvMode.inQuoted cs [] row := by
  simp [csvAux]

theorem csvAux_fieldStart_other {c : Char} (h1 : c ≠ ',') (h2 : c ≠ '\n') (h3 : c ≠ '"')
    (cs : List Char) (field : List Char) (row : List String) :
    csvAux CsvMode.fieldStart (c :: cs) field row = csvAux CsvMode.inField cs [c] row := by
  simp [csvAux, h1, h2, h3]

theorem csvAux_inField_comma (cs : List Char) (field : List Char) (row : List String) :
    csvAux CsvMode.inField (',' :: cs) field row =
      csvAux CsvMode.fieldStart cs [] (row ++ [String.mk field]) := by
  simp [csvAux]

theorem csvAux_inField_newline (cs : List Char) (field : List Char) (row : List String) :
    csvAux CsvMode.inField ('\n' :: cs) field row =
      (row ++ [String.mk field]) :: csvAux CsvMode.rowStart cs [] [] := by
  simp [csvAux]

theorem csvAux_inField_other {c : Char} (h1 : c ≠ ',') (h2 : c ≠ '\n')
    (cs : List Char) (field : List Char) (row : List String) :
    csvAux CsvMode.inField (c :: cs) field row =
      csvAux CsvMode.inField cs (field ++ [c]) row := by
  simp [csvAux, h1, h2]

theorem csvAux_inQuoted_quote (cs : List Char) (field : List Char) (row : List String) :
    csvAux CsvMode.inQuoted ('"' :: cs) field row = csvAux CsvMode.afterQuote cs field row := by
  simp [csvAux]

theorem csvAux_inQuoted_other {c : Char} (h : c ≠ '"')
    (cs : List Char) (field : List Char) (row : List String) :
    csvAux CsvMode.inQuoted (c :: cs) field row =
      csvAux CsvMode.inQuoted cs (field ++ [c]) row := by
  simp [csvAux, h]

theorem csvAux_afterQuote_quote (cs : List Char) (field : List Char) (row : List String) :
    csvAux CsvMode.afterQuote ('"' :: cs) field row =
      csvAux CsvMode.inQuoted cs (field ++ ['"']) row := by
  simp [csvAux]

theorem csvAux_afterQuote_comma (cs : List Char) (field : List Char) (row : List String) :
    csvAux CsvMode.afterQuote (',' :: cs) field row =
      csvAux CsvMode.fieldStart cs [] (row ++ [String.mk field]) := by
  simp [csvAux]

theorem csvAux_afterQuote_newline (cs : List Char) (field : List Char) (row : List String) :
    csvAux CsvMode.afterQuote ('\n' :: cs) field row =
      (row ++ [String.mk field]) :: csvAux CsvMode.rowStart cs [] [] := by
  simp [csvAux]

theorem csvAux_inField_run (cs : List Char) (h : ∀ c ∈ cs, c ≠ ',' ∧ c ≠ '\n') :
    ∀ rest field row, csvAux CsvMode.inField (cs ++ rest) field row =
      csvAux CsvMode.inField rest (field ++ cs) row := by
  induction cs with
  | nil => intro rest field row; simp
  | cons c cs ih =>
    intro rest field row
    obtain ⟨hc1, hc2⟩ := h c (by simp)
    rw [List.cons_append, csvAux_inField_other hc1 hc2,
      ih (fun c hc => h c (by simp [hc])) rest (field ++ [c]) row]
    simp

theorem csvAux_inQuoted_run (cs : List Char) :
    ∀ rest field row, csvAux CsvMode.inQuoted (escQuote cs ++ rest) field row =
      csvAux CsvMode.inQuoted rest (field ++ cs) row := by
  induction cs with
  | nil => intro rest field row; simp [escQuote]
  | cons c cs ih =>
    intro rest field row
    by_cases hc : c = '"'
    · subst hc
      have he : escQuote ('"' :: cs) = '"' :: '"' :: escQuote cs := by simp [escQuote]
      rw [he, List.cons_append, List.cons_append, csvAux_inQuoted_quote,
        csvAux_afterQuote_quote, ih]
      simp
    · have he : escQuote (c :: cs) = c :: escQuote cs := by simp [escQuote, hc]
      rw [he, List.cons_append, csvAux_inQuoted_other hc, ih]
      simp

theorem renderField_quoted {f : String} (hq : needsQuote f = true) :
    renderField f = '"' :: (escQuote f.data ++ ['"']) := by
  unfold renderField
  rw [hq]
  simp

theorem renderField_plain {f : String} (hq : needsQuote f = false) :
    renderField f = f.data := by
  unfold renderField
  rw [hq]
  simp

theorem data_eq_nil {f : String} (h : f.data = []) : f = "" := by
  rw [← mk_data f, h]

theorem csvAux_field_comma (f : String) (rest : List Char) (row : List String) :
    csvAux CsvMode.fieldStart (renderField f ++ ',' :: rest) [] row =
      csvAux CsvMode.fieldStart rest [] (row ++ [f]) := by
  cases hq : needsQuote f with
  | true =>
    rw [renderField_quoted hq, List.cons_append, csvAux_fieldStart_quote, List.append_assoc,
      List.singleton_append, csvAux_inQuoted_run, csvAux_inQuoted_quote, csvAux_afterQuote_comma]
    simp [mk_data]
  | false =>
    rw [renderField_plain hq]
    cases hd : f.data with
    | nil =>
      rw [data_eq_nil hd, List.nil_append, csvAux_fieldStart_comma]
    | cons c cs =>
      have hpl : ∀ x ∈ f.data, x ≠ ',' ∧ x ≠ '"' ∧ x ≠ '\r' ∧ x ≠ '\n' :=
        needsQuote_false_plain hq
      obtain ⟨h1, h3, _, h2⟩ := hpl c (by rw [hd]; simp)
      rw [List.cons_append, csvAux_fieldStart_other h1 h2 h3,
        csvAux_inField_run cs
          (fun x hx => ⟨(hpl x (by rw [hd]; simp [hx])).1, (hpl x (by rw [hd]; simp [hx])).2.2.2⟩),
        csvAux_inField_comma]
      have hmk : String.mk ([c] ++ cs) = f := by
        rw [List.singleton_append, ← hd, mk_data]
      rw [hmk]

theorem csvAux_field_newline (f : String) (rest : List Char) (row : List String) :
    csvAux CsvMode.fieldStart (renderField f ++ '\n' :: rest) [] row =
      (row ++ [f]) :: csvAux CsvMode.rowStart rest [] [] := by
  cases hq : needsQuote f with
  | true =>
    rw [renderField_quoted hq, List.cons_append, csvAux_fieldStart_quote, List.append_assoc,
      List.singleton_append, csvAux_inQuoted_run, csvAux_inQuoted_quote, csvAux_afterQuote_newline]
    simp [mk_data]
  | false =>
    rw [renderField_plain hq]
    cases hd : f.data with
    | nil =>
      rw [data_eq_nil hd, List.nil_append, csvAux_fieldStart_newline]
    | cons c cs =>
      have hpl : ∀ x ∈ f.data, x ≠ ',' ∧ x ≠ '"' ∧ x ≠ '\r' ∧ x ≠ '\n' :=
        needsQuote_false_plain hq
      obtain ⟨h1, h3, _, h2⟩ := hpl c (by rw [hd]; simp)
      rw [List.cons_append, csvAux_fieldStart_other h1 h2 h3,
        csvAux_inField_run cs
          (fun x hx => ⟨(hpl x (by rw [hd]; simp [hx])).1, (hpl x (by rw [hd]; simp [hx])).2.2.2⟩),
        csvAux_inField_newline]
      have hmk : String.mk ([c] ++ cs) = f := by
        rw [List.singleton_append, ← hd, mk_data]
      rw [hmk]

theorem csvAux_cells_newline :
    ∀ (fields : List String), fields ≠ [] →
      ∀ (row : List String) (rest : List Char),
        csvAux CsvMode.fieldStart (renderCells fields ++ '\n' :: rest) [] row =
          (row ++ fields) :: csvAux CsvMode.rowStart rest [] []
  | [], h, _, _ => absurd rfl h
  | [f], _, row, rest => by
    rw [show renderCells [f] = renderField f from rfl, csvAux_field_newline]
  | f :: g :: gs, _, row, rest => by
    rw [show renderCells (f :: g :: gs) = renderField f ++ ',' :: renderCells (g :: gs) from rfl,
      List.append_assoc, List.cons_append, csvAux_field_comma,
      csvAux_cells_newline (g :: gs) (by simp) (row ++ [f]) rest]
    simp

theorem csvAux_rowStart_as_fieldStart {c : Char} (h : c ≠ '\n') (cs : List Char) :
    csvAux CsvMode.rowStart (c :: cs) [] [] = csvAux CsvMode.fieldStart (c :: cs) [] [] := by
  by_cases h1 : c = ','
  · subst h1
    rw [csvAux_rowStart_comma, csvAux_fieldStart_comma]
    simp
  · by_cases h3 : c = '"'
    · subst h3
      rw [csvAux_rowStart_quote, csvAux_fieldStart_quote]
    · rw [csvAux_rowStart_other h1 h h3, csvAux_fieldStart_other h1 h h3]

theorem renderCells_head :
    ∀ (fields : List String), fields ≠ [] → fields ≠ [""] →
      ∃ c cs, renderCells fields = c :: cs ∧ c ≠ '\n'
  | [], h, _ => absurd rfl h
  | [f], _, h1 => by
    have hf : f ≠ "" := fun he => h1 (by rw [he])
    rw [show renderCells [f] = renderField f from rfl]
    cases hq : needsQuote f with
    | true => exact ⟨'"', _, renderField_quoted hq, by decide⟩
    | false =>
      cases hd : f.data with
      | nil => exact absurd (data_eq_nil hd) hf
      | cons c cs =>
        exact ⟨c, cs, by rw [renderField_plain hq, hd],
          ((needsQuote_false_plain hq) c (by rw [hd]; simp)).2.2.2⟩
  | f :: g :: gs, _, _ => by
    rw [show renderCells (f :: g :: gs) = renderField f ++ ',' :: renderCells (g :: gs) from rfl]
    cases hq : needsQuote f with
    | true => exact ⟨'"', _, by rw [renderField_quoted hq]; rfl, by decide⟩
    | false =>
      cases hd : f.data with
      | nil =>
        rw [renderField_plain hq, hd, List.nil_append]
        exact ⟨',', _, rfl, by decide⟩
      | cons c cs =>
        refine ⟨c, cs ++ ',' :: renderCells (g :: gs), ?_,
          ((needsQuote_false_plain hq) c (by rw [hd]; simp)).2.2.2⟩
        rw [renderField_plain hq, hd]
        rfl

theorem csvAux_row_line (fields : List String) (hne : fields ≠ []) (rest : List Char) :
    csvAux CsvMode.rowStart (renderRow fields ++ '\n' :: rest) [] [] =
      fields :: csvAux CsvMode.rowStart rest [] [] := by
  by_cases hq : fields = [""]
  · subst hq
    rw [show renderRow [""] = ['"', '"'] from rfl]
    rw [show (['"', '"'] : List Char) ++ '\n' :: rest = '"' :: '"' :: '\n' :: rest from rfl]
    rw [csvAux_rowStart_quote, csvAux_inQuoted_quote, csvAux_afterQuote_newline]
    rfl
  · obtain ⟨c, cs0, hrc, hcn⟩ := renderCells_head fields hne hq
    rw [show renderRow fields = renderCells fields from by unfold renderRow; rw [if_neg hq]]
    rw [hrc, List.cons_append, csvAux_rowStart_as_fieldStart hcn, ← List.cons_append, ← hrc,
      csvAux_cells_newline fields hne [] rest]
    simp

theorem parseCsv_join (rws : List (List String)) (h : ∀ r ∈ rws, r ≠ []) :
    csvAux CsvMode.rowStart
      (List.foldr (fun r acc => renderRow r ++ '\n' :: acc) [] rws) [] [] = rws := by
  induction rws with
  | nil => rfl
  | cons r rs ih =>
    rw [List.foldr_cons, csvAux_row_line r (h r (by simp)),
      ih (fun x hx => h x (by simp [hx]))]

/-! ## Universal-newline translation of the written file -/

theorem univNLGo_cr (cs : List Char) : univNLGo false ('\r' :: cs) = '\n' :: univNLGo true cs := by
  simp [univNLGo]

theorem univNLGo_true_lf (cs : List Char) : univNLGo true ('\n' :: cs) = univNLGo false cs := by
  simp [univNLGo]

theorem univNLGo_false_other {c : Char} (h : c ≠ '\r') (cs : List Char) :
    univNLGo false (c :: cs) = c :: univNLGo false cs := by
  simp [univNLGo, h]

theorem univNLGo_append_crlf (xs : List Char) (h : '\r' ∉ xs) (rest : List Char) :
    univNLGo false (xs ++ '\r' :: '\n' :: rest) = xs ++ '\n' :: univNLGo false rest := by
  induction xs with
  | nil =>
    rw [List.nil_append, univNLGo_cr, univNLGo_true_lf, List.nil_append]
  | cons c cs ih =>
    have hc : c ≠ '\r' := fun hc => h (by simp [hc])
    rw [List.cons_append, univNLGo_false_other hc,
      ih (fun hm => h (by simp [hm])), List.cons_append]

theorem univNL_join (rws : List (List String)) (h : ∀ r ∈ rws, '\r' ∉ renderRow r) :
    univNL (List.foldr (fun r acc => renderRow r ++ '\r' :: '\n' :: acc) [] rws) =
      List.foldr (fun r acc => renderRow r ++ '\n' :: acc) [] rws := by
  induction rws with
  | nil => rfl
  | cons r rs ih =>
    rw [List.foldr_cons, List.foldr_cons]
    unfold univNL
    rw [univNLGo_append_crlf _ (h r (by simp))]
    unfold univNL at ih
    rw [ih (fun x hx => h x (by simp [hx]))]

theorem mem_escQuote {c : Char} {cs : List Char} (h : c ∈ escQuote cs) : c = '"' ∨ c ∈ cs := by
  induction cs with
  | nil => simp [escQuote] at h
  | cons d ds ih =>
    by_cases hd : d = '"'
    · subst hd
      rw [show escQuote ('"' :: ds) = '"' :: '"' :: escQuote ds from by simp [escQuote]] at h
      rcases List.mem_cons.mp h with rfl | h2
      · exact Or.inl rfl
      · rcases List.mem_cons.mp h2 with rfl | h3
        · exact Or.inl rfl
        · rcases ih h3 with h4 | h4
          · exact Or.inl h4
          · exact Or.inr (by simp [h4])
    · rw [show escQuote (d :: ds) = d :: escQuote ds from by simp [escQuote, hd]] at h
      rcases List.mem_cons.mp h with rfl | h2
      · exact Or.inr (by simp)
      · rcases ih h2 with h4 | h4
        · exact Or.inl h4
        · exact Or.inr (by simp [h4])

theorem cr_not_mem_renderField {f : String} (h : '\r' ∉ f.data) : '\r' ∉ renderField f := by
  cases hq : needsQuote f with
  | true =>
    rw [renderField_quoted hq]
    intro hm
    rcases List.mem_cons.mp hm with h1 | h1
    · exact absurd h1 (by decide)
    · rcases List.mem_append.mp h1 with h2 | h2
      · rcases mem_escQuote h2 with h3 | h3
        · exact absurd h3 (by decide)
        · exact h h3
      · exact absurd (List.mem_singleton.mp h2) (by decide)
  | false =>
    rw [renderField_plain hq]
    exact h

theorem cr_not_mem_renderCells :
    ∀ (fields : List String), (∀ f ∈ fields, '\r' ∉ f.data) → '\r' ∉ renderCells fields
  | [], _ => by simp [renderCells]
  | [f], h => by
    rw [show renderCells [f] = renderField f from rfl]
    exact cr_not_mem_renderField (h f (by simp))
  | f :: g :: gs, h => by
    rw [show renderCells (f :: g :: gs) = renderField f ++ ',' :: renderCells (g :: gs) from rfl]
    intro hm
    rcases List.mem_append.mp hm with h1 | h1
    · exact cr_not_mem_renderField (h f (by simp)) h1
    · rcases List.mem_cons.mp h1 with h2 | h2
      · exact absurd h2 (by decide)
      · exact cr_not_mem_renderCells (g :: gs) (fun x hx => h x (by simp at hx ⊢; tauto)) h2

theorem cr_not_mem_renderRow {fields : List String} (h : ∀ f ∈ fields, '\r' ∉ f.data) :
    '\r' ∉ renderRow fields := by
  by_cases hq : fields = [""]
  · rw [hq, show renderRow [""] = ['"', '"'] from rfl]
    decide
  · rw [show renderRow fields = renderCells fields from by unfold renderRow; rw [if_neg hq]]
    exact cr_not_mem_renderCells fields h

/-! ## `save_csv` success path and `DictReader` assembly -/

theorem dict_to_list_ok (fns : List String) (r : CRow)
    (h : r.all (fun kv => fns.contains kv.1) = true) :
    dict_to_list fns r = Except.ok (fns.map (fun f => (getKV r f).getD "")) := by
  unfold dict_to_list
  rw [h]
  simp

theorem write_rows_ok (fns : List String) (rows : List CRow)
    (h : ∀ r ∈ rows, r.all (fun kv => fns.contains kv.1) = true) :
    write_rows fns rows =
      (List.foldr
        (fun r acc => renderRow (fns.map (fun f => (getKV r f).getD "")) ++ '\r' :: '\n' :: acc)
        [] rows, Option.none) := by
  induction rows with
  | nil => rfl
  | cons r rs ih =>
    simp only [write_rows]
    rw [dict_to_list_ok fns r (h r (by simp)), ih (fun x hx => h x (by simp [hx]))]
    simp [renderLine, List.append_assoc]

theorem getKV_keys_vals (r : CRow) (hnd : (r.map Prod.fst).Nodup) :
    (r.map Prod.fst).map (fun f => (getKV r f).getD "") = r.map Prod.snd := by
  induction r with
  | nil => rfl
  | cons kv rest ih =>
    rw [List.map_cons, List.nodup_cons] at hnd
    rw [List.map_cons, List.map_cons, List.map_cons]
    congr 1
    · simp [getKV]
    · rw [List.map_congr_left (fun f hf => ?_), ih hnd.2]
      have hne : kv.1 ≠ f := fun he => hnd.1 (he ▸ hf)
      simp [getKV, hne]

theorem dictRow_self (r : CRow) : dictRow (r.map Prod.fst) (r.map Prod.snd) = embedRow r := by
  induction r with
  | nil => rfl
  | cons kv rest ih =>
    rw [List.map_cons, List.map_cons, show embedRow (kv :: rest) =
      (Option.some kv.1, Cell.text kv.2) :: embedRow rest from rfl]
    rw [show dictRow (kv.1 :: rest.map Prod.fst) (kv.2 :: rest.map Prod.snd) =
      (Option.some kv.1, Cell.text kv.2) :: dictRow (rest.map Prod.fst) (rest.map Prod.snd)
      from rfl, ih]

theorem data_mk (cs : List Char) : (String.mk cs).data = cs := rfl

theorem foldr_join_map (g : CRow → List String) (l : List CRow) :
    List.foldr (fun r acc => renderRow (g r) ++ '\r' :: '\n' :: acc) [] l =
      List.foldr (fun cr acc => renderRow cr ++ '\r' :: '\n' :: acc) [] (l.map g) := by
  induction l with
  | nil => rfl
  | cons r rs ih => rw [List.foldr_cons, List.map_cons, List.foldr_cons, ih]

/-- Claim C3 (amended): for a non-empty record set whose records all share
the first record's key list (non-empty, without duplicates) and contain no
carriage-return character in any field name or value, saving with `save_csv`
and loading with `load_csv` returns exactly the saved records, every value
read back as text. -/
theorem save_load_csv_round_trip (fs : FS) (p : String) (first : CRow) (rest : List CRow)
    (hkeys : ∀ r ∈ first :: rest, r.map Prod.fst = first.map Prod.fst)
    (hnodup : (first.map Prod.fst).Nodup)
    (hne : first ≠ [])
    (hcr : ∀ r ∈ first :: rest, ∀ kv ∈ r, '\r' ∉ kv.1.data ∧ '\r' ∉ kv.2.data) :
    (load_csv (save_csv fs p (first :: rest)).1 p).1 = (first :: rest).map embedRow := by
  have hall : ∀ r ∈ first :: rest,
      r.all (fun kv => (first.map Prod.fst).contains kv.1) = true := by
    intro r hr
    rw [List.all_eq_true]
    intro kv hkv
    have hm : kv.1 ∈ first.map Prod.fst := by
      rw [← hkeys r hr]
      exact List.mem_map_of_mem Prod.fst hkv
    simpa using hm
  have hcells : ∀ r ∈ first :: rest,
      (first.map Prod.fst).map (fun f => (getKV r f).getD "") = r.map Prod.snd := by
    intro r hr
    rw [← hkeys r hr]
    refine getKV_keys_vals r ?_
    rw [hkeys r hr]
    exact hnodup
  have hcontent : csv_content (first.map Prod.fst) (first :: rest) =
      (List.foldr (fun cr acc => renderRow cr ++ '\r' :: '\n' :: acc) []
        ((first.map Prod.fst) :: (first :: rest).map (fun r => r.map Prod.snd)),
        Option.none) := by
    unfold csv_content
    rw [write_rows_ok (first.map Prod.fst) (first :: rest) hall]
    rw [foldr_join_map (fun r => (first.map Prod.fst).map (fun f => (getKV r f).getD ""))]
    rw [List.map_congr_left hcells]
    rw [List.foldr_cons]
    simp [renderLine, List.append_assoc]
  have hsave : save_csv fs p (first :: rest) =
      (fsSet fs p (String.mk (List.foldr (fun cr acc => renderRow cr ++ '\r' :: '\n' :: acc) []
        ((first.map Prod.fst) :: (first :: rest).map (fun r => r.map Prod.snd)))),
        ["Successfully saved CSV data to " ++ p ++ "."]) := by
    simp only [save_csv]
    rw [hcontent]
  rw [hsave]
  simp only [load_csv]
  rw [fsGet_fsSet]
  have hnocr : ∀ cr ∈ (first.map Prod.fst) :: (first :: rest).map (fun r => r.map Prod.snd),
      '\r' ∉ renderRow cr := by
    intro cr hcr2
    rcases List.mem_cons.mp hcr2 with rfl | hm
    · refine cr_not_mem_renderRow ?_
      intro f hf
      obtain ⟨kv, hkv, rfl⟩ := List.mem_map.mp hf
      exact (hcr first (by simp) kv hkv).1
    · obtain ⟨r, hr, rfl⟩ := List.mem_map.mp hm
      refine cr_not_mem_renderRow ?_
      intro f hf
      obtain ⟨kv, hkv, rfl⟩ := List.mem_map.mp hf
      exact (hcr r hr kv hkv).2
  dsimp only
  rw [univNL_join _ hnocr]
  rw [show parseCsv (List.foldr (fun r acc => renderRow r ++ '\n' :: acc) []
      ((first.map Prod.fst) :: (first :: rest).map (fun r => r.map Prod.snd))) =
    (first.map Prod.fst) :: (first :: rest).map (fun r => r.map Prod.snd) from
    parseCsv_join _ ?_]
  · simp only [dictRead]
    have hfilter : ((first :: rest).map (fun r => r.map Prod.snd)).filter (fun r => r ≠ []) =
        (first :: rest).map (fun r => r.map Prod.snd) := by
      rw [List.filter_eq_self]
      intro a ha
      obtain ⟨r, hr, rfl⟩ := List.mem_map.mp ha
      have : r ≠ [] := by
        intro hre
        have := hkeys r hr
        rw [hre] at this
        exact hne (List.map_eq_nil_iff.mp this.symm)
      simpa using this
    rw [hfilter, List.map_map]
    refine List.map_congr_left ?_
    intro r hr
    have : dictRow (first.map Prod.fst) (r.map Prod.snd) =
        dictRow (r.map Prod.fst) (r.map Prod.snd) := by rw [hkeys r hr]
    rw [Function.comp_apply, this, dictRow_self]
  · intro r hrm
    rcases List.mem_cons.mp hrm with rfl | hm
    · intro hre
      exact hne (List.map_eq_nil_iff.mp hre)
    · obtain ⟨r0, hr0, rfl⟩ := List.mem_map.mp hm
      intro hre
      have hk := hkeys r0 hr0
      rw [List.map_eq_nil_iff.mp hre] at hk
      exact hne (List.map_eq_nil_iff.mp hk.symm)

theorem save_load_csv_round_trip_witness :
    (∀ r ∈ [[("name", "Alice"), ("city", "Boston")], [("name", "Bob"), ("city", "Seattle")]],
      r.map Prod.fst = ([("name", "Alice"), ("city", "Boston")] : CRow).map Prod.fst) ∧
    (([("name", "Alice"), ("city", "Boston")] : CRow).map Prod.fst).Nodup ∧
    (load_csv (save_csv [] "example.csv"
        [[("name", "Alice"), ("city", "Boston")], [("name", "Bob"), ("city", "Seattle")]]).1
      "example.csv").1 =
      [[("name", "Alice"), ("city", "Boston")],
        [("name", "Bob"), ("city", "Seattle")]].map embedRow :=
  ⟨by decide, by decide,
    save_load_csv_round_trip [] "example.csv" [("name", "Alice"), ("city", "Boston")]
      [[("name", "Bob"), ("city", "Seattle")]] (by decide) (by decide) (by decide) (by decide)⟩

/-- Claim C3 as stated is false on the code: `load_csv` opens the file in
text mode without `newline=""`, so a carriage return inside a (quoted) field
value is translated to a line feed on the way back in; the record set
`[{"a": "x\ry"}]` is rectangular with only text values, yet it does not
survive the round trip. -/
theorem save_load_csv_cr_counterexample :
    (load_csv (save_csv [] "t.csv" [[("a", "x\ry")]]).1 "t.csv").1 =
      [[(Option.some "a", Cell.text "x\ny")]] ∧
    (load_csv (save_csv [] "t.csv" [[("a", "x\ry")]]).1 "t.csv").1 ≠
      ([[("a", "x\ry")]] : List CRow).map embedRow := by
  exact ⟨by decide, by decide⟩

/-! ## The `load_csv` parsing claim -/

theorem dictRow_eq_zip :
    ∀ (fns : List String) (r : List String), r.length = fns.length →
      dictRow fns r = (fns.zip r).map (fun fc => (Option.some fc.1, Cell.text fc.2))
  | [], [], _ => rfl
  | f :: fns, c :: cs, h => by
    rw [show dictRow (f :: fns) (c :: cs) =
      (Option.some f, Cell.text c) :: dictRow fns cs from rfl]
    rw [dictRow_eq_zip fns cs (by simpa using h)]
    rfl
  | [], _ :: _, h => by simp at h
  | _ :: _, [], h => by simp at h

/-- Claim C7 (amended): when the file is present, `load_csv` takes the first
parsed row as the field names and returns one record per non-blank
subsequent row (blank rows are skipped by `DictReader`); when every
non-blank data row has exactly as many cells as the header, each record is
the header zipped with the row's cells, all values text.  When the file is
missing, `load_csv` returns the empty sequence and only a report line,
raising nothing. -/
theorem load_csv_spec (fs : FS) (p s : String) (header : List String)
    (rows : List (List String))
    (hfound : fsGet fs p = Option.some s)
    (hparse : parseCsv (univNL s.data) = header :: rows)
    (hrect : ∀ r ∈ rows, r ≠ [] → r.length = header.length) :
    (load_csv fs p).1 =
      (rows.filter (fun r => r ≠ [])).map
        (fun r => (header.zip r).map (fun fc => (Option.some fc.1, Cell.text fc.2))) ∧
    ∀ fs2 p2, fsGet fs2 p2 = Option.none →
      load_csv fs2 p2 =
        ([], ["Error loading CSV file: [Errno 2] No such file or directory: '" ++ p2 ++ "'"]) := by
  constructor
  · simp only [load_csv]
    rw [hfound]
    dsimp only
    rw [hparse]
    simp only [dictRead]
    refine List.map_congr_left ?_
    intro r hr
    rw [List.mem_filter] at hr
    exact dictRow_eq_zip header r (hrect r hr.1 (of_decide_eq_true hr.2))
  · intro fs2 p2 h2
    simp [load_csv, h2]

theorem load_csv_spec_witness :
    fsGet (fsSet [] "w.csv" "a,b\r\nx,y\r\n") "w.csv" = Option.some "a,b\r\nx,y\r\n" ∧
    parseCsv (univNL ("a,b\r\nx,y\r\n" : String).data) = [["a", "b"], ["x", "y"]] ∧
    (load_csv (fsSet [] "w.csv" "a,b\r\nx,y\r\n") "w.csv").1 =
      ([["x", "y"]].filter (fun r => r ≠ [])).map
        (fun r => ((["a", "b"].zip r).map (fun fc => (Option.some fc.1, Cell.text fc.2)))) :=
  ⟨by decide, by decide,
    (load_csv_spec (fsSet [] "w.csv" "a,b\r\nx,y\r\n") "w.csv" "a,b\r\nx,y\r\n"
      ["a", "b"] [["x", "y"]] (by decide) (by decide) (by decide)).1⟩

/-- Claim C7 as stated is false on the code: the file `"a\r\n\r\nx\r\n"`
parses successfully into a header and two subsequent rows, but `load_csv`
returns a single record, because `DictReader` silently skips the blank
row. -/
theorem load_csv_blank_row_counterexample :
    fsGet (fsSet [] "t2.csv" "a\r\n\r\nx\r\n") "t2.csv" =
      Option.some "a\r\n\r\nx\r\n" ∧
    parseCsv (univNL ("a\r\n\r\nx\r\n" : String).data) = [["a"], [], ["x"]] ∧
    (load_csv (fsSet [] "t2.csv" "a\r\n\r\nx\r\n") "t2.csv").1 =
      [[(Option.some "a", Cell.text "x")]] ∧
    ([[(Option.some "a", Cell.text "x")]] : List DRow).length ≠
      ([["a"], [], ["x"]] : List (List String)).length - 1 :=
  ⟨by decide, by decide, by decide, by decide⟩

/-! ## JSON lemmas: hexadecimal and decimal digits -/

theorem parseHexDigit_hexDigitChar {m : Nat} (h : m < 16) :
    parseHexDigit (hexDigitChar m) = Option.some m := by
  interval_cases m <;> decide

theorem digitChar_isDigit {m : Nat} (h : m < 10) : (digitChar m).isDigit = true := by
  interval_cases m <;> decide

theorem digitChar_toNat {m : Nat} (h : m < 10) : (digitChar m).toNat = 48 + m := by
  interval_cases m <;> decide

theorem natCharsGo_fuel (n : Nat) :
    ∀ f g acc, n ≤ f → n ≤ g → natCharsGo (f + 1) n acc = natCharsGo (g + 1) n acc := by
  induction n using Nat.strong_induction_on with
  | _ n ih =>
    intro f g acc hf hg
    by_cases h10 : n < 10
    · simp [natCharsGo, h10]
    · have hrec : n / 10 < n := Nat.div_lt_self (by omega) (by omega)
      cases f with
      | zero => omega
      | succ f2 =>
        cases g with
        | zero => omega
        | succ g2 =>
          rw [show natCharsGo (f2 + 1 + 1) n acc =
              natCharsGo (f2 + 1) (n / 10) (digitChar (n % 10) :: acc) from by
            simp [natCharsGo, h10]]
          rw [show natCharsGo (g2 + 1 + 1) n acc =
              natCharsGo (g2 + 1) (n / 10) (digitChar (n % 10) :: acc) from by
            simp [natCharsGo, h10]]
          exact ih (n / 10) hrec f2 g2 _ (by omega) (by omega)

theorem natCharsGo_acc (n : Nat) :
    ∀ f acc, n ≤ f → natCharsGo (f + 1) n acc = natCharsGo (f + 1) n [] ++ acc := by
  induction n using Nat.strong_induction_on with
  | _ n ih =>
    intro f acc hf
    by_cases h10 : n < 10
    · simp [natCharsGo, h10]
    · have hrec : n / 10 < n := Nat.div_lt_self (by omega) (by omega)
      cases f with
      | zero => omega
      | succ f2 =>
        rw [show natCharsGo (f2 + 1 + 1) n acc =
            natCharsGo (f2 + 1) (n / 10) (digitChar (n % 10) :: acc) from by
          simp [natCharsGo, h10]]
        rw [show natCharsGo (f2 + 1 + 1) n [] =
            natCharsGo (f2 + 1) (n / 10) [digitChar (n % 10)] from by
          simp [natCharsGo, h10]]
        rw [ih (n / 10) hrec f2 (digitChar (n % 10) :: acc) (by omega),
          ih (n / 10) hrec f2 [digitChar (n % 10)] (by omega)]
        simp

theorem natChars_eq (n : Nat) :
    natChars n = if n < 10 then [digitChar n]
      else natChars (n / 10) ++ [digitChar (n % 10)] := by
  unfold natChars
  by_cases h10 : n < 10
  · simp [natCharsGo, h10]
  · rw [if_neg h10]
    cases hn : n with
    | zero => omega
    | succ n2 =>
      have h10b : ¬ n2 + 1 < 10 := hn ▸ h10
      rw [show natCharsGo (n2 + 1 + 1) (n2 + 1) [] =
          natCharsGo (n2 + 1) ((n2 + 1) / 10) [digitChar ((n2 + 1) % 10)] from by
        rw [natCharsGo, if_neg h10b]]
      have hle : (n2 + 1) / 10 ≤ n2 := by omega
      rw [natCharsGo_fuel ((n2 + 1) / 10) n2 ((n2 + 1) / 10)
        [digitChar ((n2 + 1) % 10)] hle (Nat.le_refl _)]
      rw [natCharsGo_acc ((n2 + 1) / 10) ((n2 + 1) / 10)
        [digitChar ((n2 + 1) % 10)] (Nat.le_refl _)]

theorem natChars_ne_nil (n : Nat) : natChars n ≠ [] := by
  rw [natChars_eq n]
  by_cases h10 : n < 10
  · simp [h10]
  · simp [h10]

theorem natChars_all_digits (n : Nat) : ∀ c ∈ natChars n, c.isDigit = true := by
  induction n using Nat.strong_induction_on with
  | _ n ih =>
    intro c hc
    rw [natChars_eq n] at hc
    by_cases h10 : n < 10
    · rw [if_pos h10] at hc
      rw [List.mem_singleton.mp hc]
      exact digitChar_isDigit h10
    · rw [if_neg h10] at hc
      rcases List.mem_append.mp hc with h1 | h1
      · exact ih (n / 10) (Nat.div_lt_self (by omega) (by omega)) c h1
      · rw [List.mem_singleton.mp h1]
        exact digitChar_isDigit (by omega)

theorem foldl_natChars (n : Nat) :
    ∀ acc, List.foldl (fun a c => a * 10 + (c.toNat - 48)) acc (natChars n) =
      acc * 10 ^ (natChars n).length + n := by
  induction n using Nat.strong_induction_on with
  | _ n ih =>
    intro acc
    by_cases h10 : n < 10
    · rw [natChars_eq n, if_pos h10]
      simp [digitChar_toNat h10]
    · rw [natChars_eq n, if_neg h10]
      rw [List.foldl_append]
      rw [ih (n / 10) (Nat.div_lt_self (by omega) (by omega)) acc]
      simp only [List.foldl_cons, List.foldl_nil, List.length_append, List.length_singleton]
      rw [digitChar_toNat (by omega : n % 10 < 10)]
      have h1 : (acc * 10 ^ (natChars (n / 10)).length + n / 10) * 10 + (48 + n % 10 - 48) =
          acc * (10 ^ (natChars (n / 10)).length * 10) + (10 * (n / 10) + n % 10) := by
        ring_nf
        omega
      rw [h1, Nat.div_add_mod, pow_succ]

theorem parseDigits_append (ds : List Char) (hds : ∀ c ∈ ds, c.isDigit = true) :
    ∀ rest acc, (∀ c ∈ rest.take 1, c.isDigit = false) →
      parseDigits (ds ++ rest) acc =
        (List.foldl (fun a c => a * 10 + (c.toNat - 48)) acc ds, rest) := by
  induction ds with
  | nil =>
    intro rest acc hnd
    cases rest with
    | nil => rfl
    | cons c cs =>
      have hc := hnd c (by simp)
      simp [parseDigits, hc]
  | cons d ds ih =>
    intro rest acc hnd
    rw [List.cons_append]
    rw [show parseDigits (d :: (ds ++ rest)) acc =
        parseDigits (ds ++ rest) (acc * 10 + (d.toNat - 48)) from by
      rw [parseDigits, if_pos (hds d (by simp))]]
    rw [ih (fun c hc => hds c (by simp [hc])) rest _ hnd]
    simp

theorem digit_ne_minus {c : Char} (h : c.isDigit = true) : c ≠ '-' := by
  intro he
  rw [he] at h
  simp at h

theorem parseIntFrom_intChars (n : Int) (rest : List Char)
    (hnd : ∀ c ∈ rest.take 1, c.isDigit = false) :
    ∃ c cs, intChars n ++ rest = c :: cs ∧
      (c = '-' ∨ c.isDigit = true) ∧
      parseIntFrom c cs = Option.some (n, rest) := by
  cases n with
  | ofNat m =>
    obtain ⟨c, cs0, hnc⟩ := List.exists_cons_of_ne_nil (natChars_ne_nil m)
    have hdig : c.isDigit = true := natChars_all_digits m c (by rw [hnc]; simp)
    refine ⟨c, cs0 ++ rest, by rw [show intChars (Int.ofNat m) = natChars m from rfl, hnc]; simp,
      Or.inr hdig, ?_⟩
    unfold parseIntFrom
    rw [if_neg (digit_ne_minus hdig), if_pos hdig]
    have hds : ∀ x ∈ cs0, x.isDigit = true := fun x hx =>
      natChars_all_digits m x (by rw [hnc]; simp [hx])
    rw [parseDigits_append cs0 hds rest (c.toNat - 48) hnd]
    have hval : List.foldl (fun a c => a * 10 + (c.toNat - 48)) (c.toNat - 48) cs0 = m := by
      have h0 := foldl_natChars m 0
      rw [hnc] at h0
      simpa using h0
    rw [hval]
    rfl
  | negSucc m =>
    obtain ⟨d, ds, hnc⟩ := List.exists_cons_of_ne_nil (natChars_ne_nil (m + 1))
    have hdig : d.isDigit = true := natChars_all_digits (m + 1) d (by rw [hnc]; simp)
    refine ⟨'-', natChars (m + 1) ++ rest,
      by rw [show intChars (Int.negSucc m) = '-' :: natChars (m + 1) from rfl]; simp, Or.inl rfl, ?_⟩
    unfold parseIntFrom
    rw [if_pos rfl, hnc, List.cons_append]
    dsimp only
    rw [if_pos hdig]
    have hds : ∀ x ∈ ds, x.isDigit = true := fun x hx =>
      natChars_all_digits (m + 1) x (by rw [hnc]; simp [hx])
    rw [parseDigits_append ds hds rest (d.toNat - 48) hnd]
    have hval : List.foldl (fun a c => a * 10 + (c.toNat - 48)) (d.toNat - 48) ds = m + 1 := by
      have h0 := foldl_natChars (m + 1) 0
      rw [hnc] at h0
      simpa using h0
    rw [hval]
    rw [show Int.negSucc m = -((m + 1 : Nat) : Int) from by
      rw [Int.negSucc_eq]
      simp]

/-! ## JSON lemmas: string escaping round trip -/

theorem parseStrBody_u_bmp (a b c3 d : Char) (n : Nat) (cs : List Char)
    (hh : hex4Val a b c3 d = Option.some n)
    (h1 : ¬(55296 ≤ n ∧ n ≤ 56319)) (h2 : ¬(56320 ≤ n ∧ n ≤ 57343)) :
    parseStrBody ('\\' :: 'u' :: a :: b :: c3 :: d :: cs) =
      (parseStrBody cs).map (fun p => (Char.ofNat n :: p.1, p.2)) := by
  simp [parseStrBody, hh, h1, h2]

theorem parseStrBody_u_pair (a b c3 d a2 b2 c2 d2 : Char) (n m : Nat) (cs2 : List Char)
    (hh : hex4Val a b c3 d = Option.some n) (hh2 : hex4Val a2 b2 c2 d2 = Option.some m)
    (h1 : 55296 ≤ n ∧ n ≤ 56319) (h2 : 56320 ≤ m ∧ m ≤ 57343) :
    parseStrBody
        ('\\' :: 'u' :: a :: b :: c3 :: d :: '\\' :: 'u' :: a2 :: b2 :: c2 :: d2 :: cs2) =
      (parseStrBody cs2).map (fun p =>
        (Char.ofNat (65536 + 1024 * (n - 55296) + (m - 56320)) :: p.1, p.2)) := by
  simp [parseStrBody, hh, hh2, h1.1, h1.2, h2.1, h2.2]

theorem parseStrBody_plain {c : Char} (h1 : c ≠ '"') (h2 : c ≠ '\\') (cs : List Char) :
    parseStrBody (c :: cs) = (parseStrBody cs).map (fun p => (c :: p.1, p.2)) := by
  simp [parseStrBody, h1, h2]

theorem hex4Val_digits {n : Nat} (h : n < 65536) :
    hex4Val (hexDigitChar (n / 4096 % 16)) (hexDigitChar (n / 256 % 16))
      (hexDigitChar (n / 16 % 16)) (hexDigitChar (n % 16)) = Option.some n := by
  unfold hex4Val
  rw [parseHexDigit_hexDigitChar (show n / 4096 % 16 < 16 by omega),
    parseHexDigit_hexDigitChar (show n / 256 % 16 < 16 by omega),
    parseHexDigit_hexDigitChar (show n / 16 % 16 < 16 by omega),
    parseHexDigit_hexDigitChar (show n % 16 < 16 by omega)]
  dsimp only
  congr 1
  omega

theorem hex4_cons (n : Nat) :
    hex4 n = hexDigitChar (n / 4096 % 16) :: hexDigitChar (n / 256 % 16) ::
      hexDigitChar (n / 16 % 16) :: hexDigitChar (n % 16) :: [] := rfl

theorem parseStrBody_escape (s : List Char) :
    ∀ rest, parseStrBody (escapeStr s ++ '"' :: rest) = Option.some (s, rest) := by
  induction s with
  | nil => intro rest; rfl
  | cons c s ih =>
    intro rest
    rw [show escapeStr (c :: s) = escapeChar c ++ escapeStr s from rfl, List.append_assoc]
    by_cases h1 : c = '"'
    · subst h1
      rw [show escapeChar '"' = ['\\', '"'] from rfl,
        show (['\\', '"'] : List Char) ++ (escapeStr s ++ '"' :: rest) =
          '\\' :: '"' :: (escapeStr s ++ '"' :: rest) from rfl,
        show ∀ X, parseStrBody ('\\' :: '"' :: X) =
          (parseStrBody X).map (fun p => ('"' :: p.1, p.2)) from fun X => rfl, ih rest]
      rfl
    · by_cases h2 : c = '\\'
      · subst h2
        rw [show escapeChar '\\' = ['\\', '\\'] from rfl,
          show (['\\', '\\'] : List Char) ++ (escapeStr s ++ '"' :: rest) =
            '\\' :: '\\' :: (escapeStr s ++ '"' :: rest) from rfl,
          show ∀ X, parseStrBody ('\\' :: '\\' :: X) =
            (parseStrBody X).map (fun p => ('\\' :: p.1, p.2)) from fun X => rfl, ih rest]
        rfl
      · by_cases h3 : c = '\n'
        · subst h3
          rw [show escapeChar '\n' = ['\\', 'n'] from rfl,
            show (['\\', 'n'] : List Char) ++ (escapeStr s ++ '"' :: rest) =
              '\\' :: 'n' :: (escapeStr s ++ '"' :: rest) from rfl,
            show ∀ X, parseStrBody ('\\' :: 'n' :: X) =
              (parseStrBody X).map (fun p => ('\n' :: p.1, p.2)) from fun X => rfl, ih rest]
          rfl
        · by_cases h4 : c = '\t'
          · subst h4
            rw [show escapeChar '\t' = ['\\', 't'] from rfl,
              show (['\\', 't'] : List Char) ++ (escapeStr s ++ '"' :: rest) =
                '\\' :: 't' :: (escapeStr s ++ '"' :: rest) from rfl,
              show ∀ X, parseStrBody ('\\' :: 't' :: X) =
                (parseStrBody X).map (fun p => ('\t' :: p.1, p.2)) from fun X => rfl, ih rest]
            rfl
          · by_cases h5 : c = '\r'
            · subst h5
              rw [show escapeChar '\r' = ['\\', 'r'] from rfl,
                show (['\\', 'r'] : List Char) ++ (escapeStr s ++ '"' :: rest) =
                  '\\' :: 'r' :: (escapeStr s ++ '"' :: rest) from rfl,
                show ∀ X, parseStrBody ('\\' :: 'r' :: X) =
                  (parseStrBody X).map (fun p => ('\r' :: p.1, p.2)) from fun X => rfl, ih rest]
              rfl
            · by_cases h6 : c.toNat = 8
              · rw [show c = Char.ofNat 8 from by rw [← Char.ofNat_toNat c, h6]]
                rw [show escapeChar (Char.ofNat 8) = ['\\', 'b'] from rfl,
                  show (['\\', 'b'] : List Char) ++ (escapeStr s ++ '"' :: rest) =
                    '\\' :: 'b' :: (escapeStr s ++ '"' :: rest) from rfl,
                  show ∀ X, parseStrBody ('\\' :: 'b' :: X) =
                    (parseStrBody X).map (fun p => (Char.ofNat 8 :: p.1, p.2)) from
                    fun X => rfl, ih rest]
                rfl
              · by_cases h7 : c.toNat = 12
                · rw [show c = Char.ofNat 12 from by rw [← Char.ofNat_toNat c, h7]]
                  rw [show escapeChar (Char.ofNat 12) = ['\\', 'f'] from rfl,
                    show (['\\', 'f'] : List Char) ++ (escapeStr s ++ '"' :: rest) =
                      '\\' :: 'f' :: (escapeStr s ++ '"' :: rest) from rfl,
                    show ∀ X, parseStrBody ('\\' :: 'f' :: X) =
                      (parseStrBody X).map (fun p => (Char.ofNat 12 :: p.1, p.2)) from
                      fun X => rfl, ih rest]
                  rfl
                · by_cases h8 : 32 ≤ c.toNat ∧ c.toNat ≤ 126
                  · have hec : escapeChar c = [c] := by
                      unfold escapeChar
                      rw [if_neg h1, if_neg h2, if_neg h3, if_neg h4, if_neg h5, if_neg h6,
                        if_neg h7, if_pos h8]
                    rw [hec, List.singleton_append, parseStrBody_plain h1 h2, ih rest]
                    rfl
                  · by_cases h9 : c.toNat < 65536
                    · have hec : escapeChar c = '\\' :: 'u' :: hex4 c.toNat := by
                        unfold escapeChar
                        rw [if_neg h1, if_neg h2, if_neg h3, if_neg h4, if_neg h5, if_neg h6,
                          if_neg h7, if_neg h8, if_pos h9]
                      have hnosur1 : ¬(55296 ≤ c.toNat ∧ c.toNat ≤ 56319) := by
                        have hvt : c.toNat = c.val.toNat := rfl
                        rcases c.valid with hv | hv <;> omega
                      have hnosur2 : ¬(56320 ≤ c.toNat ∧ c.toNat ≤ 57343) := by
                        have hvt : c.toNat = c.val.toNat := rfl
                        rcases c.valid with hv | hv <;> omega
                      rw [hec, hex4_cons]
                      rw [show ('\\' :: 'u' :: hexDigitChar (c.toNat / 4096 % 16) ::
                          hexDigitChar (c.toNat / 256 % 16) :: hexDigitChar (c.toNat / 16 % 16) ::
                          hexDigitChar (c.toNat % 16) :: []) ++ (escapeStr s ++ '"' :: rest) =
                        '\\' :: 'u' :: hexDigitChar (c.toNat / 4096 % 16) ::
                          hexDigitChar (c.toNat / 256 % 16) :: hexDigitChar (c.toNat / 16 % 16) ::
                          hexDigitChar (c.toNat % 16) :: (escapeStr s ++ '"' :: rest) from rfl]
                      rw [parseStrBody_u_bmp _ _ _ _ c.toNat _ (hex4Val_digits h9)
                        hnosur1 hnosur2, ih rest]
                      simp [Char.ofNat_toNat]
                    · have hec : escapeChar c =
                          '\\' :: 'u' :: (hex4 (55296 + (c.toNat - 65536) / 1024) ++
                            '\\' :: 'u' :: hex4 (56320 + (c.toNat - 65536) % 1024)) := by
                        unfold escapeChar
                        rw [if_neg h1, if_neg h2, if_neg h3, if_neg h4, if_neg h5, if_neg h6,
                          if_neg h7, if_neg h8, if_neg h9]
                      have hlt : c.toNat < 1114112 := by
                        have hvt : c.toNat = c.val.toNat := rfl
                        rcases c.valid with hv | hv <;> omega
                      have hhi : 55296 + (c.toNat - 65536) / 1024 < 65536 := by omega
                      have hlo : 56320 + (c.toNat - 65536) % 1024 < 65536 := by omega
                      rw [hec, hex4_cons, hex4_cons]
                      rw [show ('\\' :: 'u' ::
                          ((hexDigitChar ((55296 + (c.toNat - 65536) / 1024) / 4096 % 16) ::
                            hexDigitChar ((55296 + (c.toNat - 65536) / 1024) / 256 % 16) ::
                            hexDigitChar ((55296 + (c.toNat - 65536) / 1024) / 16 % 16) ::
                            hexDigitChar ((55296 + (c.toNat - 65536) / 1024) % 16) :: []) ++
                          '\\' :: 'u' ::
                            hexDigitChar ((56320 + (c.toNat - 65536) % 1024) / 4096 % 16) ::
                            hexDigitChar ((56320 + (c.toNat - 65536) % 1024) / 256 % 16) ::
                            hexDigitChar ((56320 + (c.toNat - 65536) % 1024) / 16 % 16) ::
                            hexDigitChar ((56320 + (c.toNat - 65536) % 1024) % 16) :: [])) ++
                          (escapeStr s ++ '"' :: rest) =
                        '\\' :: 'u' ::
                          hexDigitChar ((55296 + (c.toNat - 65536) / 1024) / 4096 % 16) ::
                          hexDigitChar ((55296 + (c.toNat - 65536) / 1024) / 256 % 16) ::
                          hexDigitChar ((55296 + (c.toNat - 65536) / 1024) / 16 % 16) ::
                          hexDigitChar ((55296 + (c.toNat - 65536) / 1024) % 16) ::
                          '\\' :: 'u' ::
                          hexDigitChar ((56320 + (c.toNat - 65536) % 1024) / 4096 % 16) ::
                          hexDigitChar ((56320 + (c.toNat - 65536) % 1024) / 256 % 16) ::
                          hexDigitChar ((56320 + (c.toNat - 65536) % 1024) / 16 % 16) ::
                          hexDigitChar ((56320 + (c.toNat - 65536) % 1024) % 16) ::
                          (escapeStr s ++ '"' :: rest) from rfl]
                      rw [parseStrBody_u_pair _ _ _ _ _ _ _ _
                        (55296 + (c.toNat - 65536) / 1024) (56320 + (c.toNat - 65536) % 1024) _
                        (hex4Val_digits hhi) (hex4Val_digits hlo)
                        (by omega) (by omega), ih rest]
                      have hch : Char.ofNat (65536 +
                          1024 * (55296 + (c.toNat - 65536) / 1024 - 55296) +
                          (56320 + (c.toNat - 65536) % 1024 - 56320)) = c := by
                        rw [show 65536 + 1024 * (55296 + (c.toNat - 65536) / 1024 - 55296) +
                            (56320 + (c.toNat - 65536) % 1024 - 56320) = c.toNat from by omega]
                        exact Char.ofNat_toNat c
                      simp [hch]
                      rw [show 65536 + 1024 * ((c.toNat - 65536) / 1024) +
                          (c.toNat - 65536) % 1024 = c.toNat from by omega, Char.ofNat_toNat]

/-! ## JSON lemmas: whitespace and the shape of serialized text -/

theorem not_mem_append2 {α : Type} {a : α} {l1 l2 : List α} (h1 : a ∉ l1) (h2 : a ∉ l2) :
    a ∉ l1 ++ l2 := by
  intro hm
  rcases List.mem_append.mp hm with h | h
  · exact h1 h
  · exact h2 h

theorem not_mem_cons2 {α : Type} {a b : α} {l : List α} (h1 : a ≠ b) (h2 : a ∉ l) :
    a ∉ b :: l := by
  intro hm
  rcases List.mem_cons.mp hm with h | h
  · exact h1 h
  · exact h2 h

theorem skipWs_cons_ws {c : Char} (h : c = ' ' ∨ c = '\n') (cs : List Char) :
    skipWs (c :: cs) = skipWs cs := by
  rcases h with rfl | rfl <;> simp [skipWs]

theorem skipWs_append_ws (ws : List Char) (h : ∀ c ∈ ws, c = ' ' ∨ c = '\n') (cs : List Char) :
    skipWs (ws ++ cs) = skipWs cs := by
  induction ws with
  | nil => rw [List.nil_append]
  | cons c ws ih =>
    rw [List.cons_append, skipWs_cons_ws (h c (by simp)), ih (fun x hx => h x (by simp [hx]))]

theorem skipWs_not_ws {c : Char} (h1 : c ≠ ' ') (h2 : c ≠ '\t') (h3 : c ≠ '\n') (h4 : c ≠ '\r')
    (cs : List Char) : skipWs (c :: cs) = c :: cs := by
  simp [skipWs, h1, h2, h3, h4]

theorem sp_ws (k : Nat) : ∀ c ∈ sp k, c = ' ' ∨ c = '\n' := by
  intro c hc
  unfold sp at hc
  rw [List.eq_of_mem_replicate hc]
  exact Or.inl rfl

theorem natChars_head (n : Nat) : ∃ c cs, natChars n = c :: cs ∧ c.isDigit = true := by
  obtain ⟨c, cs, h⟩ := List.exists_cons_of_ne_nil (natChars_ne_nil n)
  exact ⟨c, cs, h, natChars_all_digits n c (by rw [h]; simp)⟩

theorem intChars_head (n : Int) :
    ∃ c cs, intChars n = c :: cs ∧ (c = '-' ∨ c.isDigit = true) := by
  cases n with
  | ofNat m =>
    obtain ⟨c, cs, h, hd⟩ := natChars_head m
    exact ⟨c, cs, h, Or.inr hd⟩
  | negSucc m => exact ⟨'-', natChars (m + 1), rfl, Or.inl rfl⟩

theorem dumpVal_head (d : Nat) (v : JValue) :
    ∃ c cs, dumpVal d v = c :: cs ∧
      (c = 'n' ∨ c = 't' ∨ c = 'f' ∨ c = '"' ∨ c = '[' ∨ c = '{' ∨
        c = '-' ∨ c.isDigit = true) := by
  cases v with
  | null => exact ⟨'n', _, rfl, by tauto⟩
  | bool b =>
    cases b with
    | true => exact ⟨'t', _, rfl, by tauto⟩
    | false => exact ⟨'f', _, rfl, by tauto⟩
  | int n =>
    obtain ⟨c, cs, h, hd⟩ := intChars_head n
    refine ⟨c, cs, ?_, by tauto⟩
    rw [show dumpVal d (JValue.int n) = intChars n from rfl, h]
  | str s => exact ⟨'"', _, rfl, by tauto⟩
  | arr xs =>
    cases xs with
    | nil => exact ⟨'[', _, rfl, by tauto⟩
    | cons x xs => exact ⟨'[', _, rfl, by tauto⟩
  | obj ms =>
    cases ms with
    | nil => exact ⟨'{', _, rfl, by tauto⟩
    | cons m ms => exact ⟨'{', _, rfl, by tauto⟩

theorem valHead_props {c : Char}
    (h : c = 'n' ∨ c = 't' ∨ c = 'f' ∨ c = '"' ∨ c = '[' ∨ c = '{' ∨
      c = '-' ∨ c.isDigit = true) :
    c ≠ ' ' ∧ c ≠ '\t' ∧ c ≠ '\n' ∧ c ≠ '\r' ∧ c ≠ ']' ∧ c ≠ '}' ∧ c ≠ ',' := by
  rcases h with rfl | rfl | rfl | rfl | rfl | rfl | rfl | hd
  · decide
  · decide
  · decide
  · decide
  · decide
  · decide
  · decide
  · refine ⟨?_, ?_, ?_, ?_, ?_, ?_, ?_⟩ <;>
      (rintro rfl; exact absurd hd (by decide))

theorem hexDigitChar_ne_cr {m : Nat} (h : m < 16) : hexDigitChar m ≠ '\r' := by
  interval_cases m <;> decide

theorem hex4_no_cr (n : Nat) : '\r' ∉ hex4 n := by
  rw [hex4_cons]
  refine not_mem_cons2 (Ne.symm (hexDigitChar_ne_cr (by omega))) ?_
  refine not_mem_cons2 (Ne.symm (hexDigitChar_ne_cr (by omega))) ?_
  refine not_mem_cons2 (Ne.symm (hexDigitChar_ne_cr (by omega))) ?_
  refine not_mem_cons2 (Ne.symm (hexDigitChar_ne_cr (by omega))) ?_
  exact List.not_mem_nil '\r'

theorem escapeChar_no_cr (c : Char) : '\r' ∉ escapeChar c := by
  unfold escapeChar
  by_cases h1 : c = '"'
  · rw [if_pos h1]; decide
  · rw [if_neg h1]
    by_cases h2 : c = '\\'
    · rw [if_pos h2]; decide
    · rw [if_neg h2]
      by_cases h3 : c = '\n'
      · rw [if_pos h3]; decide
      · rw [if_neg h3]
        by_cases h4 : c = '\t'
        · rw [if_pos h4]; decide
        · rw [if_neg h4]
          by_cases h5 : c = '\r'
          · rw [if_pos h5]; decide
          · rw [if_neg h5]
            by_cases h6 : c.toNat = 8
            · rw [if_pos h6]; decide
            · rw [if_neg h6]
              by_cases h7 : c.toNat = 12
              · rw [if_pos h7]; decide
              · rw [if_neg h7]
                by_cases h8 : 32 ≤ c.toNat ∧ c.toNat ≤ 126
                · rw [if_pos h8]
                  intro hm
                  rw [List.mem_singleton] at hm
                  exact h5 hm.symm
                · rw [if_neg h8]
                  by_cases h9 : c.toNat < 65536
                  · rw [if_pos h9]
                    refine not_mem_cons2 (by decide) (not_mem_cons2 (by decide) (hex4_no_cr _))
                  · rw [if_neg h9]
                    refine not_mem_cons2 (by decide) (not_mem_cons2 (by decide) ?_)
                    refine not_mem_append2 (hex4_no_cr _) ?_
                    refine not_mem_cons2 (by decide) (not_mem_cons2 (by decide) (hex4_no_cr _))

theorem escapeStr_no_cr (s : List Char) : '\r' ∉ escapeStr s := by
  induction s with
  | nil => exact List.not_mem_nil '\r'
  | cons c s ih =>
    rw [show escapeStr (c :: s) = escapeChar c ++ escapeStr s from rfl]
    exact not_mem_append2 (escapeChar_no_cr c) ih

theorem natChars_no_cr (n : Nat) : '\r' ∉ natChars n := by
  intro hm
  exact absurd (natChars_all_digits n '\r' hm) (by decide)

theorem intChars_no_cr (n : Int) : '\r' ∉ intChars n := by
  cases n with
  | ofNat m => exact natChars_no_cr m
  | negSucc m =>
    rw [show intChars (Int.negSucc m) = '-' :: natChars (m + 1) from rfl]
    exact not_mem_cons2 (by decide) (natChars_no_cr (m + 1))

theorem sp_no_cr (k : Nat) : '\r' ∉ sp k := by
  intro hm
  have := List.eq_of_mem_replicate hm
  exact absurd this (by decide)

theorem jsizeV_pos (v : JValue) : 1 ≤ jsizeV v := by
  cases v <;> simp [jsizeV]

theorem jsizeL_cons_pos (x : JValue) (xs : List JValue) : 1 ≤ jsizeL (x :: xs) := by
  simp [jsizeL]

theorem jsizeM_cons_pos (m : String × JValue) (ms : List (String × JValue)) :
    1 ≤ jsizeM (m :: ms) := by
  cases m
  simp [jsizeM]

theorem dump_no_cr (N : Nat) :
    (∀ v d, jsizeV v ≤ N → '\r' ∉ dumpVal d v) ∧
    (∀ (k : String) (v : JValue) d, jsizeV v ≤ N → '\r' ∉ dumpMember d (k, v)) ∧
    (∀ xs d, jsizeL xs ≤ N → '\r' ∉ dumpArrRest d xs) ∧
    (∀ ms d, jsizeM ms ≤ N → '\r' ∉ dumpObjRest d ms) := by
  induction N using Nat.strong_induction_on with
  | _ N ih =>
    have hval : ∀ v d, jsizeV v ≤ N → '\r' ∉ dumpVal d v := by
      intro v d hs
      cases v with
      | null =>
        rw [show dumpVal d JValue.null = ['n', 'u', 'l', 'l'] from rfl]
        decide
      | bool b =>
        cases b with
        | true => rw [show dumpVal d (JValue.bool true) = ['t', 'r', 'u', 'e'] from rfl]; decide
        | false =>
          rw [show dumpVal d (JValue.bool false) = ['f', 'a', 'l', 's', 'e'] from rfl]; decide
      | int n => exact intChars_no_cr n
      | str s =>
        rw [show dumpVal d (JValue.str s) = '"' :: (escapeStr s.data ++ ['"']) from rfl]
        exact not_mem_cons2 (by decide) (not_mem_append2 (escapeStr_no_cr _) (by decide))
      | arr xs =>
        cases xs with
        | nil => rw [show dumpVal d (JValue.arr []) = ['[', ']'] from rfl]; decide
        | cons x xs2 =>
          have heq : jsizeV (JValue.arr (x :: xs2)) = max (jsizeV x) (jsizeL xs2) + 2 := by
            simp [jsizeV, jsizeL]
          rw [heq] at hs
          have hx := Nat.le_max_left (jsizeV x) (jsizeL xs2)
          have hxs := Nat.le_max_right (jsizeV x) (jsizeL xs2)
          have hIH := ih (N - 1) (by omega)
          rw [show dumpVal d (JValue.arr (x :: xs2)) =
            '[' :: '\n' :: (sp (4 * (d + 1)) ++ dumpVal (d + 1) x ++
              dumpArrRest (d + 1) xs2 ++ '\n' :: (sp (4 * d) ++ [']'])) from rfl]
          refine not_mem_cons2 (by decide) (not_mem_cons2 (by decide) ?_)
          refine not_mem_append2 (not_mem_append2 (not_mem_append2 (sp_no_cr _)
            (hIH.1 x (d + 1) (by omega))) (hIH.2.2.1 xs2 (d + 1) (by omega))) ?_
          exact not_mem_cons2 (by decide) (not_mem_append2 (sp_no_cr _) (by decide))
      | obj ms =>
        cases ms with
        | nil => rw [show dumpVal d (JValue.obj []) = ['{', '}'] from rfl]; decide
        | cons m ms2 =>
          obtain ⟨k, v2⟩ := m
          have heq : jsizeV (JValue.obj ((k, v2) :: ms2)) =
              max (jsizeV v2) (jsizeM ms2) + 2 := by
            simp [jsizeV, jsizeM]
          rw [heq] at hs
          have hx := Nat.le_max_left (jsizeV v2) (jsizeM ms2)
          have hxs := Nat.le_max_right (jsizeV v2) (jsizeM ms2)
          have hIH := ih (N - 1) (by omega)
          rw [show dumpVal d (JValue.obj ((k, v2) :: ms2)) =
            '{' :: '\n' :: (sp (4 * (d + 1)) ++ dumpMember (d + 1) (k, v2) ++
              dumpObjRest (d + 1) ms2 ++ '\n' :: (sp (4 * d) ++ ['}'])) from rfl]
          refine not_mem_cons2 (by decide) (not_mem_cons2 (by decide) ?_)
          refine not_mem_append2 (not_mem_append2 (not_mem_append2 (sp_no_cr _)
            (hIH.2.1 k v2 (d + 1) (by omega))) (hIH.2.2.2 ms2 (d + 1) (by omega))) ?_
          exact not_mem_cons2 (by decide) (not_mem_append2 (sp_no_cr _) (by decide))
    have hmember : ∀ (k : String) (v : JValue) d, jsizeV v ≤ N → '\r' ∉ dumpMember d (k, v) := by
      intro k v d hs
      rw [show dumpMember d (k, v) =
        '"' :: (escapeStr k.data ++ '"' :: ':' :: ' ' :: dumpVal d v) from rfl]
      refine not_mem_cons2 (by decide) (not_mem_append2 (escapeStr_no_cr _) ?_)
      refine not_mem_cons2 (by decide) (not_mem_cons2 (by decide)
        (not_mem_cons2 (by decide) (hval v d hs)))
    refine ⟨hval, hmember, ?_, ?_⟩
    · intro xs d hs
      cases xs with
      | nil => exact List.not_mem_nil '\r'
      | cons x xs2 =>
        have heq : jsizeL (x :: xs2) = max (jsizeV x) (jsizeL xs2) + 1 := by
          simp [jsizeL]
        rw [heq] at hs
        have hx := Nat.le_max_left (jsizeV x) (jsizeL xs2)
        have hxs := Nat.le_max_right (jsizeV x) (jsizeL xs2)
        rw [show dumpArrRest d (x :: xs2) =
          ',' :: '\n' :: (sp (4 * d) ++ dumpVal d x ++ dumpArrRest d xs2) from rfl]
        refine not_mem_cons2 (by decide) (not_mem_cons2 (by decide) ?_)
        have hIH := ih (N - 1) (by omega)
        exact not_mem_append2 (not_mem_append2 (sp_no_cr _) (hIH.1 x d (by omega)))
          (hIH.2.2.1 xs2 d (by omega))
    · intro ms d hs
      cases ms with
      | nil => exact List.not_mem_nil '\r'
      | cons m ms2 =>
        obtain ⟨k, v2⟩ := m
        have heq : jsizeM ((k, v2) :: ms2) = max (jsizeV v2) (jsizeM ms2) + 1 := by
          simp [jsizeM]
        rw [heq] at hs
        have hx := Nat.le_max_left (jsizeV v2) (jsizeM ms2)
        have hxs := Nat.le_max_right (jsizeV v2) (jsizeM ms2)
        rw [show dumpObjRest d ((k, v2) :: ms2) =
          ',' :: '\n' :: (sp (4 * d) ++ dumpMember d (k, v2) ++ dumpObjRest d ms2) from rfl]
        refine not_mem_cons2 (by decide) (not_mem_cons2 (by decide) ?_)
        have hIH := ih (N - 1) (by omega)
        exact not_mem_append2 (not_mem_append2 (sp_no_cr _) (hIH.2.1 k v2 d (by omega)))
          (hIH.2.2.2 ms2 d (by omega))

theorem jsize_le_dump_len (N : Nat) :
    (∀ v d, jsizeV v ≤ N → jsizeV v ≤ (dumpVal d v).length + 1) ∧
    (∀ xs d, jsizeL xs ≤ N → jsizeL xs ≤ (dumpArrRest d xs).length + 1) ∧
    (∀ ms d, jsizeM ms ≤ N → jsizeM ms ≤ (dumpObjRest d ms).length + 1) := by
  induction N using Nat.strong_induction_on with
  | _ N ih =>
    refine ⟨?_, ?_, ?_⟩
    · intro v d hs
      cases v with
      | null => rw [show jsizeV JValue.null = 1 from rfl]; omega
      | bool b => rw [show jsizeV (JValue.bool b) = 1 from rfl]; omega
      | int n => rw [show jsizeV (JValue.int n) = 1 from rfl]; omega
      | str s => rw [show jsizeV (JValue.str s) = 1 from rfl]; omega
      | arr xs =>
        cases xs with
        | nil => rw [show jsizeV (JValue.arr []) = 1 from rfl]; omega
        | cons x xs2 =>
          have heq : jsizeV (JValue.arr (x :: xs2)) = max (jsizeV x) (jsizeL xs2) + 2 := by
            simp [jsizeV, jsizeL]
          rw [heq] at hs ⊢
          have hx := Nat.le_max_left (jsizeV x) (jsizeL xs2)
          have hxs := Nat.le_max_right (jsizeV x) (jsizeL xs2)
          have hIH := ih (N - 1) (by omega)
          have h1 := hIH.1 x (d + 1) (by omega)
          have h2 := hIH.2.1 xs2 (d + 1) (by omega)
          rw [show dumpVal d (JValue.arr (x :: xs2)) =
            '[' :: '\n' :: (sp (4 * (d + 1)) ++ dumpVal (d + 1) x ++
              dumpArrRest (d + 1) xs2 ++ '\n' :: (sp (4 * d) ++ [']'])) from rfl]
          simp only [List.length_cons, List.length_append, sp, List.length_replicate,
            List.length_singleton]
          have hm : max (jsizeV x) (jsizeL xs2) ≤
              (dumpVal (d + 1) x).length + 1 + ((dumpArrRest (d + 1) xs2).length + 1) := by
            refine Nat.max_le.mpr ⟨?_, ?_⟩ <;> omega
          omega
      | obj ms =>
        cases ms with
        | nil => rw [show jsizeV (JValue.obj []) = 1 from rfl]; omega
        | cons m ms2 =>
          obtain ⟨k, v2⟩ := m
          have heq : jsizeV (JValue.obj ((k, v2) :: ms2)) =
              max (jsizeV v2) (jsizeM ms2) + 2 := by
            simp [jsizeV, jsizeM]
          rw [heq] at hs ⊢
          have hx := Nat.le_max_left (jsizeV v2) (jsizeM ms2)
          have hxs := Nat.le_max_right (jsizeV v2) (jsizeM ms2)
          have hIH := ih (N - 1) (by omega)
          have h1 := hIH.1 v2 (d + 1) (by omega)
          have h2 := hIH.2.2 ms2 (d + 1) (by omega)
          rw [show dumpVal d (JValue.obj ((k, v2) :: ms2)) =
            '{' :: '\n' :: (sp (4 * (d + 1)) ++ dumpMember (d + 1) (k, v2) ++
              dumpObjRest (d + 1) ms2 ++ '\n' :: (sp (4 * d) ++ ['}'])) from rfl]
          rw [show dumpMember (d + 1) (k, v2) =
            '"' :: (escapeStr k.data ++ '"' :: ':' :: ' ' :: dumpVal (d + 1) v2) from rfl]
          simp only [List.length_cons, List.length_append, sp, List.length_replicate,
            List.length_singleton]
          have hm : max (jsizeV v2) (jsizeM ms2) ≤
              (dumpVal (d + 1) v2).length + 1 + ((dumpObjRest (d + 1) ms2).length + 1) := by
            refine Nat.max_le.mpr ⟨?_, ?_⟩ <;> omega
          omega
    · intro xs d hs
      cases xs with
      | nil => rw [show jsizeL ([] : List JValue) = 0 from rfl]; omega
      | cons x xs2 =>
        have heq : jsizeL (x :: xs2) = max (jsizeV x) (jsizeL xs2) + 1 := by simp [jsizeL]
        rw [heq] at hs ⊢
        have hx := Nat.le_max_left (jsizeV x) (jsizeL xs2)
        have hxs := Nat.le_max_right (jsizeV x) (jsizeL xs2)
        have hIH := ih (N - 1) (by omega)
        have h1 := hIH.1 x d (by omega)
        have h2 := hIH.2.1 xs2 d (by omega)
        rw [show dumpArrRest d (x :: xs2) =
          ',' :: '\n' :: (sp (4 * d) ++ dumpVal d x ++ dumpArrRest d xs2) from rfl]
        simp only [List.length_cons, List.length_append, sp, List.length_replicate]
        have hm : max (jsizeV x) (jsizeL xs2) ≤
            (dumpVal d x).length + 1 + ((dumpArrRest d xs2).length + 1) := by
          refine Nat.max_le.mpr ⟨?_, ?_⟩ <;> omega
        omega
    · intro ms d hs
      cases ms with
      | nil => rw [show jsizeM ([] : List (String × JValue)) = 0 from rfl]; omega
      | cons m ms2 =>
        obtain ⟨k, v2⟩ := m
        have heq : jsizeM ((k, v2) :: ms2) = max (jsizeV v2) (jsizeM ms2) + 1 := by
          simp [jsizeM]
        rw [heq] at hs ⊢
        have hx := Nat.le_max_left (jsizeV v2) (jsizeM ms2)
        have hxs := Nat.le_max_right (jsizeV v2) (jsizeM ms2)
        have hIH := ih (N - 1) (by omega)
        have h1 := hIH.1 v2 d (by omega)
        have h2 := hIH.2.2 ms2 d (by omega)
        rw [show dumpObjRest d ((k, v2) :: ms2) =
          ',' :: '\n' :: (sp (4 * d) ++ dumpMember d (k, v2) ++ dumpObjRest d ms2) from rfl]
        rw [show dumpMember d (k, v2) =
          '"' :: (escapeStr k.data ++ '"' :: ':' :: ' ' :: dumpVal d v2) from rfl]
        simp only [List.length_cons, List.length_append, sp, List.length_replicate]
        have hm : max (jsizeV v2) (jsizeM ms2) ≤
            (dumpVal d v2).length + 1 + ((dumpObjRest d ms2).length + 1) := by
          refine Nat.max_le.mpr ⟨?_, ?_⟩ <;> omega
        omega

/-! ## JSON lemmas: object reconstruction -/

theorem dictInsert_append (ms : List (String × JValue)) (k : String) (v : JValue)
    (h : k ∉ ms.map Prod.fst) : dictInsert ms k v = ms ++ [(k, v)] := by
  induction ms with
  | nil => rfl
  | cons kv rest ih =>
    rw [show dictInsert (kv :: rest) k v =
      if kv.1 = k then (k, v) :: rest else kv :: dictInsert rest k v from rfl]
    rw [if_neg (fun he => h (by rw [← he]; simp))]
    rw [ih (fun hm => h (by simp [hm]))]
    simp

theorem keysUniq_cons {k : String} {ks : List String} (h : keysUniq (k :: ks) = true) :
    k ∉ ks ∧ keysUniq ks = true := by
  rw [show keysUniq (k :: ks) = (!(ks.contains k) && keysUniq ks) from rfl,
    Bool.and_eq_true, Bool.not_eq_true'] at h
  refine ⟨fun hm => ?_, h.2⟩
  rw [show ks.contains k = List.elem k ks from rfl, List.elem_eq_true_of_mem hm] at h
  exact absurd h.1 (by simp)

theorem foldl_dictInsert (ms : List (String × JValue)) :
    ∀ acc, keysUniq (ms.map Prod.fst) = true →
      (∀ kv ∈ ms, kv.1 ∉ acc.map Prod.fst) →
      List.foldl (fun acc kv => dictInsert acc kv.1 kv.2) acc ms = acc ++ ms := by
  induction ms with
  | nil => intro acc _ _; simp
  | cons kv rest ih =>
    intro acc hu hacc
    rw [List.map_cons] at hu
    obtain ⟨hknotin, hurest⟩ := keysUniq_cons hu
    rw [List.foldl_cons, dictInsert_append acc kv.1 kv.2 (hacc kv (by simp))]
    have hstep : ∀ x ∈ rest, x.1 ∉ (acc ++ [(kv.1, kv.2)]).map Prod.fst := by
      intro x hx
      rw [List.map_append]
      refine not_mem_append2 (hacc x (by simp [hx])) ?_
      intro hm
      rw [List.map_singleton, List.mem_singleton] at hm
      exact hknotin (hm ▸ List.mem_map_of_mem Prod.fst hx)
    rw [ih (acc ++ [(kv.1, kv.2)]) hurest hstep]
    simp

theorem objFromMembers_id (ms : List (String × JValue))
    (h : keysUniq (ms.map Prod.fst) = true) : objFromMembers ms = ms := by
  unfold objFromMembers
  rw [foldl_dictInsert ms [] h (fun kv _ => by simp)]
  simp

theorem intHead_ne {c : Char} (h : c = '-' ∨ c.isDigit = true) :
    c ≠ 'n' ∧ c ≠ 't' ∧ c ≠ 'f' ∧ c ≠ '"' ∧ c ≠ '[' ∧ c ≠ '{' := by
  rcases h with rfl | hd
  · decide
  · refine ⟨?_, ?_, ?_, ?_, ?_, ?_⟩ <;> (rintro rfl; exact absurd hd (by decide))

theorem wfL_cons {x : JValue} {xs : List JValue} (h : wfL (x :: xs) = true) :
    wfV x = true ∧ wfL xs = true := by
  rw [show wfL (x :: xs) = (wfV x && wfL xs) from by simp [wfL], Bool.and_eq_true] at h
  exact h

theorem wfM_cons {k : String} {v : JValue} {ms : List (String × JValue)}
    (h : wfM ((k, v) :: ms) = true) : wfV v = true ∧ wfM ms = true := by
  rw [show wfM ((k, v) :: ms) = (wfV v && wfM ms) from by simp [wfM], Bool.and_eq_true] at h
  exact h

theorem arrTail_head (d : Nat) (xs : List JValue) (ws2 : List Char) (rest : List Char) :
    ∀ c ∈ (dumpArrRest d xs ++ '\n' :: (ws2 ++ ']' :: rest)).take 1, c.isDigit = false := by
  cases xs with
  | nil =>
    rw [show dumpArrRest d [] = [] from rfl, List.nil_append]
    intro c hc
    simp at hc
    subst hc
    decide
  | cons y ys =>
    rw [show dumpArrRest d (y :: ys) =
      ',' :: '\n' :: (sp (4 * d) ++ dumpVal d y ++ dumpArrRest d ys) from rfl]
    intro c hc
    simp at hc
    subst hc
    decide

theorem objTail_head (d : Nat) (ms : List (String × JValue)) (ws2 : List Char)
    (rest : List Char) :
    ∀ c ∈ (dumpObjRest d ms ++ '\n' :: (ws2 ++ '}' :: rest)).take 1, c.isDigit = false := by
  cases ms with
  | nil =>
    rw [show dumpObjRest d [] = [] from rfl, List.nil_append]
    intro c hc
    simp at hc
    subst hc
    decide
  | cons m ms2 =>
    obtain ⟨k, v⟩ := m
    rw [show dumpObjRest d ((k, v) :: ms2) =
      ',' :: '\n' :: (sp (4 * d) ++ dumpMember d (k, v) ++ dumpObjRest d ms2) from rfl]
    intro c hc
    simp at hc
    subst hc
    decide

theorem nl_sp_ws (k : Nat) : ∀ c ∈ '\n' :: sp k, c = ' ' ∨ c = '\n' := by
  intro c hc
  rcases List.mem_cons.mp hc with rfl | h
  · exact Or.inr rfl
  · exact sp_ws k c h

theorem parse_dump (F : Nat) :
    (∀ v d ws rest, wfV v = true → jsizeV v ≤ F → (∀ c ∈ ws, c = ' ' ∨ c = '\n') →
      (∀ c ∈ rest.take 1, c.isDigit = false) →
      parseVal F (ws ++ (dumpVal d v ++ rest)) = Option.some (v, rest)) ∧
    (∀ x xs d ws1 ws2 rest, wfV x = true → wfL xs = true → jsizeL (x :: xs) ≤ F →
      (∀ c ∈ ws1, c = ' ' ∨ c = '\n') → (∀ c ∈ ws2, c = ' ' ∨ c = '\n') →
      parseElems F
          (ws1 ++ (dumpVal d x ++ (dumpArrRest d xs ++ '\n' :: (ws2 ++ ']' :: rest)))) =
        Option.some (x :: xs, rest)) ∧
    (∀ k v ms d ws1 ws2 rest, wfV v = true → wfM ms = true → jsizeM ((k, v) :: ms) ≤ F →
      (∀ c ∈ ws1, c = ' ' ∨ c = '\n') → (∀ c ∈ ws2, c = ' ' ∨ c = '\n') →
      parseMembers F
          (ws1 ++ (dumpMember d (k, v) ++ (dumpObjRest d ms ++ '\n' :: (ws2 ++ '}' :: rest)))) =
        Option.some ((k, v) :: ms, rest)) := by
  induction F using Nat.strong_induction_on with
  | _ F ih =>
    cases F with
    | zero =>
      refine ⟨?_, ?_, ?_⟩
      · intro v d ws rest _ hsz _ _
        exact absurd hsz (by have := jsizeV_pos v; omega)
      · intro x xs d ws1 ws2 rest _ _ hsz _ _
        exact absurd hsz (by have := jsizeL_cons_pos x xs; omega)
      · intro k v ms d ws1 ws2 rest _ _ hsz _ _
        exact absurd hsz (by have := jsizeM_cons_pos (k, v) ms; omega)
    | succ F2 =>
      have hIH := ih F2 (by omega)
      refine ⟨?_, ?_, ?_⟩
      · intro v d ws rest hwf hsz hws hnd
        cases v with
        | null =>
          have hskip : skipWs (ws ++ (dumpVal d JValue.null ++ rest)) =
              'n' :: ('u' :: 'l' :: 'l' :: rest) := by
            rw [show dumpVal d JValue.null = ['n', 'u', 'l', 'l'] from rfl]
            rw [skipWs_append_ws ws hws]
            rw [show (['n', 'u', 'l', 'l'] : List Char) ++ rest =
              'n' :: 'u' :: 'l' :: 'l' :: rest from rfl]
            exact skipWs_not_ws (by decide) (by decide) (by decide) (by decide) _
          rw [parseVal, hskip]
          dsimp only
          rw [if_pos rfl]
          rw [show dropLit ['u', 'l', 'l'] ('u' :: 'l' :: 'l' :: rest) =
            Option.some rest from rfl]
        | bool b =>
          cases b with
          | true =>
            have hskip : skipWs (ws ++ (dumpVal d (JValue.bool true) ++ rest)) =
                't' :: ('r' :: 'u' :: 'e' :: rest) := by
              rw [show dumpVal d (JValue.bool true) = ['t', 'r', 'u', 'e'] from rfl]
              rw [skipWs_append_ws ws hws]
              rw [show (['t', 'r', 'u', 'e'] : List Char) ++ rest =
                't' :: 'r' :: 'u' :: 'e' :: rest from rfl]
              exact skipWs_not_ws (by decide) (by decide) (by decide) (by decide) _
            rw [parseVal, hskip]
            dsimp only
            rw [if_neg (by decide), if_pos rfl]
            rw [show dropLit ['r', 'u', 'e'] ('r' :: 'u' :: 'e' :: rest) =
              Option.some rest from rfl]
          | false =>
            have hskip : skipWs (ws ++ (dumpVal d (JValue.bool false) ++ rest)) =
                'f' :: ('a' :: 'l' :: 's' :: 'e' :: rest) := by
              rw [show dumpVal d (JValue.bool false) = ['f', 'a', 'l', 's', 'e'] from rfl]
              rw [skipWs_append_ws ws hws]
              rw [show (['f', 'a', 'l', 's', 'e'] : List Char) ++ rest =
                'f' :: 'a' :: 'l' :: 's' :: 'e' :: rest from rfl]
              exact skipWs_not_ws (by decide) (by decide) (by decide) (by decide) _
            rw [parseVal, hskip]
            dsimp only
            rw [if_neg (by decide), if_neg (by decide), if_pos rfl]
            rw [show dropLit ['a', 'l', 's', 'e'] ('a' :: 'l' :: 's' :: 'e' :: rest) =
              Option.some rest from rfl]
        | int n =>
          obtain ⟨c, cs, hic, hcd, hparse⟩ := parseIntFrom_intChars n rest hnd
          obtain ⟨hn1, hn2, hn3, hn4, hn5, hn6⟩ := intHead_ne hcd
          obtain ⟨hw1, hw2, hw3, hw4, _, _, _⟩ :=
            @valHead_props c (Or.inr (Or.inr (Or.inr (Or.inr (Or.inr (Or.inr hcd))))))
          have hskip : skipWs (ws ++ (dumpVal d (JValue.int n) ++ rest)) = c :: cs := by
            rw [show dumpVal d (JValue.int n) = intChars n from rfl]
            rw [skipWs_append_ws ws hws, hic]
            exact skipWs_not_ws hw1 hw2 hw3 hw4 _
          rw [parseVal, hskip]
          dsimp only
          rw [if_neg hn1, if_neg hn2, if_neg hn3, if_neg hn4, if_neg hn5, if_neg hn6, hparse]
          rfl
        | str s =>
          have hskip : skipWs (ws ++ (dumpVal d (JValue.str s) ++ rest)) =
              '"' :: (escapeStr s.data ++ '"' :: rest) := by
            rw [show dumpVal d (JValue.str s) = '"' :: (escapeStr s.data ++ ['"']) from rfl]
            rw [skipWs_append_ws ws hws]
            rw [show ('"' :: (escapeStr s.data ++ ['"'])) ++ rest =
              '"' :: (escapeStr s.data ++ '"' :: rest) from by simp]
            exact skipWs_not_ws (by decide) (by decide) (by decide) (by decide) _
          rw [parseVal, hskip]
          dsimp only
          rw [if_neg (by decide), if_neg (by decide), if_neg (by decide), if_pos rfl]
          rw [parseStrBody_escape s.data rest]
          simp [mk_data]
        | arr xs =>
          cases xs with
          | nil =>
            have hskip : skipWs (ws ++ (dumpVal d (JValue.arr []) ++ rest)) =
                '[' :: (']' :: rest) := by
              rw [show dumpVal d (JValue.arr []) = ['[', ']'] from rfl]
              rw [skipWs_append_ws ws hws]
              rw [show (['[', ']'] : List Char) ++ rest = '[' :: ']' :: rest from rfl]
              exact skipWs_not_ws (by decide) (by decide) (by decide) (by decide) _
            rw [parseVal, hskip]
            dsimp only
            rw [if_neg (by decide), if_neg (by decide), if_neg (by decide), if_neg (by decide),
              if_pos rfl]
            have hsw : skipWs (']' :: rest) = ']' :: rest :=
              skipWs_not_ws (by decide) (by decide) (by decide) (by decide) _
            rw [hsw, List.headD_cons, if_pos rfl, List.tail_cons]
          | cons x xs2 =>
            have heq : jsizeV (JValue.arr (x :: xs2)) = max (jsizeV x) (jsizeL xs2) + 2 := by
              simp [jsizeV, jsizeL]
            rw [heq] at hsz
            have hmx := Nat.le_max_left (jsizeV x) (jsizeL xs2)
            have hmxs := Nat.le_max_right (jsizeV x) (jsizeL xs2)
            have hwfs : wfV x = true ∧ wfL xs2 = true := by
              refine wfL_cons ?_
              rw [show wfV (JValue.arr (x :: xs2)) = wfL (x :: xs2) from by simp [wfV]] at hwf
              exact hwf
            have hlist : dumpVal d (JValue.arr (x :: xs2)) ++ rest =
                '[' :: (('\n' :: sp (4 * (d + 1))) ++ (dumpVal (d + 1) x ++
                  (dumpArrRest (d + 1) xs2 ++ '\n' :: (sp (4 * d) ++ ']' :: rest)))) := by
              rw [show dumpVal d (JValue.arr (x :: xs2)) =
                '[' :: '\n' :: (sp (4 * (d + 1)) ++ dumpVal (d + 1) x ++
                  dumpArrRest (d + 1) xs2 ++ '\n' :: (sp (4 * d) ++ [']'])) from rfl]
              simp [List.append_assoc]
            have hskip : skipWs (ws ++ (dumpVal d (JValue.arr (x :: xs2)) ++ rest)) =
                '[' :: (('\n' :: sp (4 * (d + 1))) ++ (dumpVal (d + 1) x ++
                  (dumpArrRest (d + 1) xs2 ++ '\n' :: (sp (4 * d) ++ ']' :: rest)))) := by
              rw [skipWs_append_ws ws hws, hlist]
              exact skipWs_not_ws (by decide) (by decide) (by decide) (by decide) _
            rw [parseVal, hskip]
            dsimp only
            rw [if_neg (by decide), if_neg (by decide), if_neg (by decide), if_neg (by decide),
              if_pos rfl]
            obtain ⟨c0, cs0, hdx, hhx⟩ := dumpVal_head (d + 1) x
            obtain ⟨hx1, hx2, hx3, hx4, hx5, hx6, hx7⟩ := valHead_props hhx
            have hswin : skipWs (('\n' :: sp (4 * (d + 1))) ++ (dumpVal (d + 1) x ++
                (dumpArrRest (d + 1) xs2 ++ '\n' :: (sp (4 * d) ++ ']' :: rest)))) =
                c0 :: (cs0 ++ (dumpArrRest (d + 1) xs2 ++ '\n' :: (sp (4 * d) ++ ']' :: rest))) := by
              rw [skipWs_append_ws ('\n' :: sp (4 * (d + 1))) (nl_sp_ws _), hdx,
                List.cons_append]
              exact skipWs_not_ws hx1 hx2 hx3 hx4 _
            rw [hswin, List.headD_cons, if_neg hx5]
            rw [hIH.2.1 x xs2 (d + 1) ('\n' :: sp (4 * (d + 1))) (sp (4 * d)) rest
              hwfs.1 hwfs.2 (by rw [show jsizeL (x :: xs2) =
                max (jsizeV x) (jsizeL xs2) + 1 from by simp [jsizeL]]; omega)
              (nl_sp_ws _) (sp_ws _)]
            rfl
        | obj ms =>
          cases ms with
          | nil =>
            have hskip : skipWs (ws ++ (dumpVal d (JValue.obj []) ++ rest)) =
                '{' :: ('}' :: rest) := by
              rw [show dumpVal d (JValue.obj []) = ['{', '}'] from rfl]
              rw [skipWs_append_ws ws hws]
              rw [show (['{', '}'] : List Char) ++ rest = '{' :: '}' :: rest from rfl]
              exact skipWs_not_ws (by decide) (by decide) (by decide) (by decide) _
            rw [parseVal, hskip]
            dsimp only
            rw [if_neg (by decide), if_neg (by decide), if_neg (by decide), if_neg (by decide),
              if_neg (by decide), if_pos rfl]
            have hsw : skipWs ('}' :: rest) = '}' :: rest :=
              skipWs_not_ws (by decide) (by decide) (by decide) (by decide) _
            rw [hsw, List.headD_cons, if_pos rfl, List.tail_cons]
          | cons m ms2 =>
            obtain ⟨k, v⟩ := m
            have heq : jsizeV (JValue.obj ((k, v) :: ms2)) =
                max (jsizeV v) (jsizeM ms2) + 2 := by
              simp [jsizeV, jsizeM]
            rw [heq] at hsz
            have hmx := Nat.le_max_left (jsizeV v) (jsizeM ms2)
            have hmxs := Nat.le_max_right (jsizeV v) (jsizeM ms2)
            have hwf2 : keysUniq (((k, v) :: ms2).map Prod.fst) = true ∧
                wfM ((k, v) :: ms2) = true := by
              rw [show wfV (JValue.obj ((k, v) :: ms2)) =
                (keysUniq (((k, v) :: ms2).map Prod.fst) && wfM ((k, v) :: ms2)) from by
                  simp [wfV], Bool.and_eq_true] at hwf
              exact hwf
            obtain ⟨hwv, hwms⟩ := wfM_cons hwf2.2
            have hlist : dumpVal d (JValue.obj ((k, v) :: ms2)) ++ rest =
                '{' :: (('\n' :: sp (4 * (d + 1))) ++ (dumpMember (d + 1) (k, v) ++
                  (dumpObjRest (d + 1) ms2 ++ '\n' :: (sp (4 * d) ++ '}' :: rest)))) := by
              rw [show dumpVal d (JValue.obj ((k, v) :: ms2)) =
                '{' :: '\n' :: (sp (4 * (d + 1)) ++ dumpMember (d + 1) (k, v) ++
                  dumpObjRest (d + 1) ms2 ++ '\n' :: (sp (4 * d) ++ ['}'])) from rfl]
              simp [List.append_assoc]
            have hskip : skipWs (ws ++ (dumpVal d (JValue.obj ((k, v) :: ms2)) ++ rest)) =
                '{' :: (('\n' :: sp (4 * (d + 1))) ++ (dumpMember (d + 1) (k, v) ++
                  (dumpObjRest (d + 1) ms2 ++ '\n' :: (sp (4 * d) ++ '}' :: rest)))) := by
              rw [skipWs_append_ws ws hws, hlist]
              exact skipWs_not_ws (by decide) (by decide) (by decide) (by decide) _
            rw [parseVal, hskip]
            dsimp only
            rw [if_neg (by decide), if_neg (by decide), if_neg (by decide), if_neg (by decide),
              if_neg (by decide), if_pos rfl]
            have hswin : skipWs (('\n' :: sp (4 * (d + 1))) ++ (dumpMember (d + 1) (k, v) ++
                (dumpObjRest (d + 1) ms2 ++ '\n' :: (sp (4 * d) ++ '}' :: rest)))) =
                '"' :: ((escapeStr k.data ++ '"' :: ':' :: ' ' :: dumpVal (d + 1) v) ++
                  (dumpObjRest (d + 1) ms2 ++ '\n' :: (sp (4 * d) ++ '}' :: rest))) := by
              rw [skipWs_append_ws ('\n' :: sp (4 * (d + 1))) (nl_sp_ws _)]
              rw [show dumpMember (d + 1) (k, v) =
                '"' :: (escapeStr k.data ++ '"' :: ':' :: ' ' :: dumpVal (d + 1) v) from rfl]
              rw [List.cons_append]
              exact skipWs_not_ws (by decide) (by decide) (by decide) (by decide) _
            rw [hswin, List.headD_cons, if_neg (by decide)]
            rw [hIH.2.2 k v ms2 (d + 1) ('\n' :: sp (4 * (d + 1))) (sp (4 * d)) rest
              hwv hwms (by rw [show jsizeM ((k, v) :: ms2) =
                max (jsizeV v) (jsizeM ms2) + 1 from by simp [jsizeM]]; omega)
              (nl_sp_ws _) (sp_ws _)]
            have hid := objFromMembers_id ((k, v) :: ms2) hwf2.1
            simp [hid]
      · intro x xs d ws1 ws2 rest hwx hwxs hsz hws1 hws2
        have heq : jsizeL (x :: xs) = max (jsizeV x) (jsizeL xs) + 1 := by simp [jsizeL]
        rw [heq] at hsz
        have hmx := Nat.le_max_left (jsizeV x) (jsizeL xs)
        have hmxs := Nat.le_max_right (jsizeV x) (jsizeL xs)
        rw [parseElems]
        rw [hIH.1 x d ws1 (dumpArrRest d xs ++ '\n' :: (ws2 ++ ']' :: rest)) hwx (by omega)
          hws1 (arrTail_head d xs ws2 rest)]
        dsimp only
        cases xs with
        | nil =>
          rw [show dumpArrRest d [] = [] from rfl, List.nil_append]
          rw [skipWs_cons_ws (Or.inr rfl), skipWs_append_ws ws2 hws2]
          rw [skipWs_not_ws (by decide) (by decide) (by decide) (by decide)]
          dsimp only
          rw [if_neg (by decide), if_pos rfl]
        | cons y ys =>
          rw [show dumpArrRest d (y :: ys) =
            ',' :: '\n' :: (sp (4 * d) ++ dumpVal d y ++ dumpArrRest d ys) from rfl]
          rw [List.cons_append]
          rw [skipWs_not_ws (by decide) (by decide) (by decide) (by decide)]
          dsimp only
          rw [if_pos rfl]
          have hshape : ('\n' :: (sp (4 * d) ++ dumpVal d y ++ dumpArrRest d ys)) ++
              '\n' :: (ws2 ++ ']' :: rest) =
            ('\n' :: sp (4 * d)) ++ (dumpVal d y ++
              (dumpArrRest d ys ++ '\n' :: (ws2 ++ ']' :: rest))) := by
            simp [List.append_assoc]
          rw [hshape]
          obtain ⟨hwy, hwys⟩ := wfL_cons hwxs
          rw [hIH.2.1 y ys d ('\n' :: sp (4 * d)) ws2 rest hwy hwys
            (by omega) (nl_sp_ws _) hws2]
          rfl
      · intro k v ms d ws1 ws2 rest hwv hwms hsz hws1 hws2
        have heq : jsizeM ((k, v) :: ms) = max (jsizeV v) (jsizeM ms) + 1 := by simp [jsizeM]
        rw [heq] at hsz
        have hmx := Nat.le_max_left (jsizeV v) (jsizeM ms)
        have hmxs := Nat.le_max_right (jsizeV v) (jsizeM ms)
        rw [parseMembers]
        have hlist : dumpMember d (k, v) ++
            (dumpObjRest d ms ++ '\n' :: (ws2 ++ '}' :: rest)) =
          '"' :: (escapeStr k.data ++ '"' :: (':' :: ' ' :: (dumpVal d v ++
            (dumpObjRest d ms ++ '\n' :: (ws2 ++ '}' :: rest))))) := by
          rw [show dumpMember d (k, v) =
            '"' :: (escapeStr k.data ++ '"' :: ':' :: ' ' :: dumpVal d v) from rfl]
          simp [List.append_assoc]
        have hskip : skipWs (ws1 ++ (dumpMember d (k, v) ++
            (dumpObjRest d ms ++ '\n' :: (ws2 ++ '}' :: rest)))) =
          '"' :: (escapeStr k.data ++ '"' :: (':' :: ' ' :: (dumpVal d v ++
            (dumpObjRest d ms ++ '\n' :: (ws2 ++ '}' :: rest))))) := by
          rw [skipWs_append_ws ws1 hws1, hlist]
          exact skipWs_not_ws (by decide) (by decide) (by decide) (by decide) _
        rw [hskip]
        dsimp only
        rw [if_pos rfl]
        rw [parseStrBody_escape k.data]
        dsimp only
        rw [skipWs_not_ws (by decide) (by decide) (by decide) (by decide)]
        dsimp only
        rw [if_pos rfl]
        rw [show (' ' :: (dumpVal d v ++ (dumpObjRest d ms ++ '\n' :: (ws2 ++ '}' :: rest)))) =
          [' '] ++ (dumpVal d v ++ (dumpObjRest d ms ++ '\n' :: (ws2 ++ '}' :: rest)))
          from rfl]
        rw [hIH.1 v d [' '] (dumpObjRest d ms ++ '\n' :: (ws2 ++ '}' :: rest)) hwv (by omega)
          (by intro c hc; simp at hc; subst hc; exact Or.inl rfl) (objTail_head d ms ws2 rest)]
        dsimp only
        cases ms with
        | nil =>
          rw [show dumpObjRest d [] = [] from rfl, List.nil_append]
          rw [skipWs_cons_ws (Or.inr rfl), skipWs_append_ws ws2 hws2]
          rw [skipWs_not_ws (by decide) (by decide) (by decide) (by decide)]
          dsimp only
          rw [if_neg (by decide), if_pos rfl, mk_data]
        | cons m ms2 =>
          obtain ⟨k2, v2⟩ := m
          rw [show dumpObjRest d ((k2, v2) :: ms2) =
            ',' :: '\n' :: (sp (4 * d) ++ dumpMember d (k2, v2) ++ dumpObjRest d ms2)
            from rfl]
          rw [List.cons_append]
          rw [skipWs_not_ws (by decide) (by decide) (by decide) (by decide)]
          dsimp only
          rw [if_pos rfl]
          have hshape : ('\n' :: (sp (4 * d) ++ dumpMember d (k2, v2) ++ dumpObjRest d ms2)) ++
              '\n' :: (ws2 ++ '}' :: rest) =
            ('\n' :: sp (4 * d)) ++ (dumpMember d (k2, v2) ++
              (dumpObjRest d ms2 ++ '\n' :: (ws2 ++ '}' :: rest))) := by
            simp [List.append_assoc]
          rw [hshape]
          obtain ⟨hwv2, hwms2⟩ := wfM_cons hwms
          rw [hIH.2.2 k2 v2 ms2 d ('\n' :: sp (4 * d)) ws2 rest hwv2 hwms2
            (by omega) (nl_sp_ws _) hws2]
          rw [mk_data]
          rfl

theorem univNL_no_cr (l : List Char) (h : '\r' ∉ l) : univNL l = l := by
  unfold univNL
  induction l with
  | nil => rfl
  | cons c cs ih =>
    have hc : c ≠ '\r' := fun he => h (he ▸ List.mem_cons_self c cs)
    rw [univNLGo_false_other hc, ih (fun hm => h (List.mem_cons_of_mem c hm))]

theorem jsonLoads_dumps (v : JValue) (h : wfV v = true) :
    jsonLoads (jsonDumps v) = Option.some v := by
  unfold jsonDumps jsonLoads
  rw [data_mk]
  have hsz : jsizeV v ≤ (dumpVal 0 v).length + 1 :=
    (jsize_le_dump_len (jsizeV v)).1 v 0 (Nat.le_refl _)
  have hp := (parse_dump ((dumpVal 0 v).length + 1)).1 v 0 [] [] h hsz
    (by intro c hc; simp at hc) (by intro c hc; simp at hc)
  rw [List.nil_append, List.append_nil] at hp
  rw [hp]
  rfl

/-- C2: for every JSON-serializable value `v` (modelled as a `JValue` whose
objects all have duplicate-free keys) and every path, `save_json` followed by
`load_json` on the same path returns `v` itself. -/
theorem json_round_trip (fs : FS) (p : String) (v : JValue) (h : wfV v = true) :
    (load_json (save_json fs p v).1 p).1 = v := by
  unfold save_json load_json load_json_attempt
  dsimp only
  rw [fsGet_fsSet]
  dsimp only
  have hncr : '\r' ∉ (jsonDumps v).data := by
    rw [jsonDumps, data_mk]
    exact (dump_no_cr (jsizeV v)).1 v 0 (Nat.le_refl _)
  rw [univNL_no_cr _ hncr, mk_data, jsonLoads_dumps v h]

/-- The C2 round trip at the spec's own example object. -/
theorem json_round_trip_witness :
    wfV (JValue.obj [("name", JValue.str "John Doe"), ("age", JValue.int 30)]) = true ∧
    (load_json (save_json [] "example.json"
        (JValue.obj [("name", JValue.str "John Doe"), ("age", JValue.int 30)])).1
      "example.json").1 =
      JValue.obj [("name", JValue.str "John Doe"), ("age", JValue.int 30)] :=
  ⟨by decide, json_round_trip [] "example.json" _ (by decide)⟩
